import Mathlib

/-!
Verification development for the canonical fuel-price normalization pipeline
(`src/can_pipeline_v2.py`).  The pandas data-frame operations are shallowly
embedded: a vendor raw table is a column-name list together with typed rows,
elementwise column operations become per-row functions, `pd.to_datetime`
with `errors="raise"` semantics becomes an `Except`-valued parser (a raised
`ValueError` is `Except.error`), missing-column access (`KeyError`) is an
`Except.error` produced by a column-presence check, and the merge engine
(concat, drop_duplicates, stable multi-column sort, groupby shift, price
difference) is embedded over lists of canonical rows.
-/

namespace CanPipeline

/-- Calendar date as rendered by `strftime("%Y-%m-%d")`. -/
structure DateD where
  y : Nat
  m : Nat
  d : Nat
deriving DecidableEq

/-- Time of day as rendered by `strftime("%H:%M:%S")`. -/
structure TimeT where
  hh : Nat
  mi : Nat
  ss : Nat
deriving DecidableEq

/-- A pandas Timestamp at second granularity: a date plus a time of day. -/
structure DT where
  date : DateD
  time : TimeT
deriving DecidableEq

/-- `Datetime = pd.to_datetime(Date + " " + Time)`: recomposing the canonical
date string and time string; `NaN` (`none`) in either operand propagates. -/
def combineDT : Option DateD → Option TimeT → Option DT
  | some d, some t => some ⟨d, t⟩
  | _, _ => none

def digitsToNatGo : List Char → Nat → Option Nat
  | [], acc => some acc
  | c :: cs, acc =>
    if c.toNat < 48 then none
    else if 57 < c.toNat then none
    else digitsToNatGo cs (acc * 10 + (c.toNat - 48))

/-- Digits of a char-list numeral; `none` when empty or non-digit. -/
def digitsToNat : List Char → Option Nat
  | [] => none
  | l => digitsToNatGo l 0

/-- Split a char list at every occurrence of the separator character
(Python `str.split(sep)` semantics: empty pieces are kept). -/
def splitOnChar (sep : Char) : List Char → List (List Char)
  | [] => [[]]
  | c :: cs =>
    match splitOnChar sep cs with
    | [] => if c = sep then [[], []] else [[c]]
    | h :: t => if c = sep then [] :: h :: t else (c :: h) :: t

/-- First piece of a split at either `-` or `:` (the Rebel
`str.split(r"[-:]").str[0]` step). -/
def takeUntilDashColon (l : List Char) : List Char :=
  l.takeWhile (fun c => !(c = '-' || c = ':'))

def validDate (y m d : Nat) : Bool :=
  1 ≤ m && m ≤ 12 && 1 ≤ d && d ≤ 31 && y ≤ 9999

def validTime (hh mi ss : Nat) : Bool :=
  hh ≤ 23 && mi ≤ 59 && ss ≤ 59

/-- Parse a date piece: `YYYY-MM-DD`, `MM/DD/YYYY`, or a bare year. -/
def parseDatePiece (l : List Char) : Option DateD :=
  match splitOnChar '-' l with
  | [ys, ms, ds] => do
    let y ← digitsToNat ys
    let m ← digitsToNat ms
    let d ← digitsToNat ds
    if validDate y m d then some ⟨y, m, d⟩ else none
  | [_] =>
    match splitOnChar '/' l with
    | [ms, ds, ys] => do
      let m ← digitsToNat ms
      let d ← digitsToNat ds
      let y ← digitsToNat ys
      if validDate y m d then some ⟨y, m, d⟩ else none
    | [_] => do
      let y ← digitsToNat l
      if l.length = 4 && y ≤ 9999 then some ⟨y, 1, 1⟩ else none
    | _ => none
  | _ => none

/-- Parse a time piece: `HH:MM` or `HH:MM:SS`. -/
def parseTimePiece (l : List Char) : Option TimeT :=
  match splitOnChar ':' l with
  | [hs, ms] => do
    let hh ← digitsToNat hs
    let mi ← digitsToNat ms
    if validTime hh mi 0 then some ⟨hh, mi, 0⟩ else none
  | [hs, ms, ss] => do
    let hh ← digitsToNat hs
    let mi ← digitsToNat ms
    let s ← digitsToNat ss
    if validTime hh mi s then some ⟨hh, mi, s⟩ else none
  | _ => none

/-- The permissive `pd.to_datetime(..., format="mixed")` element parser:
accepts ISO dates, US dates, combined date-plus-time strings, bare times
and bare years; yields `none` on anything it cannot recognise (which the
caller turns into a raised `ValueError`). A bare time is attached to a
dummy date, faithful to pandas attaching the current day: only the
time-of-day part is ever consumed by the pipeline in that case. -/
def parseMixed (s : String) : Option DT :=
  match splitOnChar ' ' s.data with
  | [p] =>
    match parseDatePiece p with
    | some d => some ⟨d, ⟨0, 0, 0⟩⟩
    | none => (parseTimePiece p).map (fun t => ⟨⟨1900, 1, 1⟩, t⟩)
  | [p, q] => do
    let d ← parseDatePiece p
    let t ← parseTimePiece q
    some ⟨d, t⟩
  | _ => none

/-- One canonical output row (the `STANDARD_COLUMNS` of the pipeline plus the
`Change` column added by the merge engine; processors emit `change = none`).
`none` models pandas `NaN`/`NaT`. -/
structure Row where
  supplier : Option String
  location : Option String
  terminal : Option String
  product : Option String
  brand : Option String
  price : Option ℚ
  datetime : Option DT
  date : Option DateD
  time : Option TimeT
  change : Option ℚ
deriving DecidableEq

/-- A raw vendor data frame: the set of column names present (for `KeyError`
semantics) together with the typed rows. -/
structure Table (α : Type) where
  cols : List String
  rows : List α

/-- Sequentially check the columns a processor accesses; the first missing
one raises a `KeyError`, as `df[col]` does in pandas. -/
def requireCols (t : Table α) (cs : List String) : Except String Unit :=
  match cs.find? (fun c => !t.cols.contains c) with
  | some c => .error ("KeyError: " ++ c)
  | none => .ok ()

def withCols (t : Table α) (cs : List String) (k : Except String β) : Except String β :=
  match requireCols t cs with
  | .error e => .error e
  | .ok _ => k

/-- Row-wise traversal with `Except`: the column-wise pandas operations of a
processor are elementwise, so the vendor batch fails iff some row fails. -/
def emap (f : α → Except String β) : List α → Except String (List β)
  | [] => .ok []
  | a :: l =>
    match f a with
    | .error e => .error e
    | .ok b =>
      match emap f l with
      | .error e => .error e
      | .ok bs => .ok (b :: bs)

/-- Elementwise `pd.to_datetime(..., format="mixed")` with the default
`errors="raise"`: `NaN` passes through as `NaT`, an unparseable string raises
`ValueError`. -/
def parseCellMixed : Option String → Except String (Option DT)
  | none => .ok none
  | some s =>
    match parseMixed s with
    | some d => .ok (some d)
    | none => .error "ValueError"

/-- `_standardize_datetime`: parse the date-bearing and time-bearing cells
permissively; `Date` keeps only the date part, `Time` only the time part. -/
def stdParse (dc tc : Option String) : Except String (Option DateD × Option TimeT) :=
  match parseCellMixed dc with
  | .error e => .error e
  | .ok d =>
    match parseCellMixed tc with
    | .error e => .error e
    | .ok t => .ok (d.map DT.date, t.map DT.time)

/-- `series.str.split(sep).str[i]`: `NaN` in, `NaN` out; missing token is
`NaN`. -/
def strSplitGet (sep : Char) (i : Nat) (c : Option String) : Option String :=
  c.bind fun s => ((splitOnChar sep s.data).get? i).map String.mk

/-- `series.isin(l)`: `NaN` is never a member. -/
def cellIn (c : Option String) (l : List String) : Bool :=
  match c with
  | none => false
  | some s => l.contains s

def lookupMap (m : List (String × String)) (s : String) : Option String :=
  (m.find? (fun e => e.1 == s)).map (fun e => e.2)

/-! ### Vendor raw row types (pre-existing vendor-native schemas) -/

structure BBRow where
  date : Option String
  time : Option String
  location : Option String
  product : Option String
  price : Option ℚ

structure BigWestRow where
  date : Option String
  time : Option String
  location : Option String
  product : Option String
  price : Option ℚ

structure BradHallRow where
  date : Option String
  time : Option String
  product : Option String
  price : Option ℚ

structure ChevronRow where
  effectiveDate : Option String
  terminal : Option String
  product : Option String
  price : Option ℚ

structure KotacoRow where
  effectiveDate : Option String
  supplier : Option String
  terminal : Option String
  product : Option String
  price : Option ℚ

structure MarathonRow where
  effectiveDatetime : Option String
  product : Option String
  terminal : Option String
  price : Option ℚ

structure MusketRow where
  effectiveDatetime : Option String
  product : Option String
  location : Option String
  price : Option ℚ

structure OffenRow where
  terminal : Option String
  effective : Option String
  product : Option String
  price : Option ℚ

structure RebelRow where
  terminal : Option String
  effectiveDatetime : Option String
  product : Option String
  price : Option ℚ

structure ShellRow where
  effectiveDate : Option String
  productName : Option String
  terminalName : Option String
  price : Option ℚ

structure SinclairRow where
  effectiveDatetime : Option String
  location : Option String
  supplier : Option String
  brand : Option String
  product : Option String
  price : Option ℚ

structure SunocoRow where
  effectiveDatetime : Option String
  product : Option String
  location : Option String
  price : Option ℚ

structure TartanRow where
  effectiveDate : Option String
  location : Option String
  product : Option String
  price : Option ℚ

structure ValeroRow where
  effectiveDatetime : Option String
  product : Option String
  terminal : Option String
  price : Option ℚ

structure EprodRow where
  effectiveDatetime : Option String
  location : Option String
  product : Option String
  price : Option ℚ

structure OpisRow where
  supplierRaw : Option String
  typeRaw : Option String
  sectionRaw : Option String
  marketingArea : Option String
  dateRaw : Option String
  timeRaw : Option String
  price1 : Option String
  price2 : Option String
  price3 : Option String
  move1 : Option String
  move2 : Option String
  move3 : Option String
  brandRaw : Option String
  terminalRaw : Option String

/-! ### Vendor processors (`_process_*` of `CanonicalPipeline`) -/

/-- The fixed BBEnergy raw-code to display-name product table. -/
def bbenergyProductCodes : List (String × String) :=
  [("B5", "DSL#2 B5"),
   ("B5-Red", "RED#2 B5"),
   ("CARB E10-Prem", "CARB 91 E10"),
   ("CARB E10-Prem TT", "CARB 91 E10 TT"),
   ("CARB E10-Unl", "CARB 87 E10"),
   ("CARB E10-Unl TT", "CARB 87 E10 TT"),
   ("CARB ULSD", "CARB DSL#2"),
   ("CARB ULSD-Red", "CARB RED#2"),
   ("CBG E10-Prem", "CBG 91 E10"),
   ("CBG E10-Prem TT", "CBG 91 E10 TT"),
   ("CBG E10-Unl", "CBG 87 E10"),
   ("CBG E10-Unl TT", "CBG 87 E10 TT"),
   ("E10-Prem", "92 E10"),
   ("E10-Prem TT", "92 E10 TT"),
   ("E10-Unl", "87 E10"),
   ("E10-Unl TT", "87 E10 TT"),
   ("RFG E10-Unl", "RFG 85 E10"),
   ("RFG E10-Unl TT", "RFG 85 E10"),
   ("ULSD", "DSL#2"),
   ("ULSD Winterized", "DSL#2 CFI"),
   ("ULSD-Red", "RED#2"),
   ("ULSD-Red Winteriz", "RED#2 CFI"),
   ("UL2 LED DYED", "RED#2"),
   ("ULSD LED", "DSL#2"),
   ("ULSD LED-Red", "RED#2")]

def processBbenergy (t : Table BBRow) : Except String (List Row) :=
  withCols t ["date", "time", "location", "product", "price"] <|
    emap (fun r =>
      match stdParse r.date r.time with
      | .error e => .error e
      | .ok p =>
        .ok { supplier := some "BBEnergy"
              location := strSplitGet '-' 0 r.location
              terminal := strSplitGet '-' 1 r.location
              product := r.product.bind (lookupMap bbenergyProductCodes)
              brand := some "Unbranded"
              price := r.price
              datetime := combineDT p.1 p.2
              date := p.1
              time := p.2
              change := none }) t.rows

def processBigwest (t : Table BigWestRow) : Except String (List Row) :=
  withCols t ["date", "time", "location", "product", "price"] <|
    emap (fun r =>
      match stdParse r.date r.time with
      | .error e => .error e
      | .ok p =>
        .ok { supplier := some "BigWest"
              location := r.location
              terminal := some ""
              product := r.product
              brand := some ""
              price := r.price
              datetime := combineDT p.1 p.2
              date := p.1
              time := p.2
              change := none }) t.rows

def processBradhall (t : Table BradHallRow) : Except String (List Row) :=
  withCols t ["date", "time", "product", "price"] <|
    emap (fun r =>
      match stdParse r.date r.time with
      | .error e => .error e
      | .ok p =>
        .ok { supplier := some "BradHall"
              location := some ""
              terminal := some ""
              product := r.product
              brand := some ""
              price := r.price
              datetime := combineDT p.1 p.2
              date := p.1
              time := p.2
              change := none }) t.rows

def processChevron (t : Table ChevronRow) : Except String (List Row) :=
  withCols t ["Effective_Date", "Terminal", "Product", "Price"] <|
    emap (fun r =>
      match stdParse r.effectiveDate r.effectiveDate with
      | .error e => .error e
      | .ok p =>
        .ok { supplier := some "Chevron"
              location := some ""
              terminal := r.terminal
              product := r.product
              brand := some ""
              price := r.price
              datetime := combineDT p.1 p.2
              date := p.1
              time := p.2
              change := none }) t.rows

def processKotaco (t : Table KotacoRow) : Except String (List Row) :=
  withCols t ["Effective_Date", "Supplier", "Terminal", "Product", "Price"] <|
    emap (fun r =>
      match stdParse r.effectiveDate r.effectiveDate with
      | .error e => .error e
      | .ok p =>
        .ok { supplier := r.supplier.map (fun s => "Kotaco" ++ "-" ++ s)
              location := some ""
              terminal := r.terminal
              product := r.product
              brand := some ""
              price := r.price
              datetime := combineDT p.1 p.2
              date := p.1
              time := p.2
              change := none }) t.rows

def processMarathon (t : Table MarathonRow) : Except String (List Row) :=
  withCols t ["effective_datetime", "product", "price", "terminal"] <|
    emap (fun r =>
      match stdParse r.effectiveDatetime r.effectiveDatetime with
      | .error e => .error e
      | .ok p =>
        .ok { supplier := some "Marathon"
              location := some ""
              terminal := r.terminal
              product := r.product
              brand := some ""
              price := r.price
              datetime := combineDT p.1 p.2
              date := p.1
              time := p.2
              change := none }) t.rows

def processMusket (t : Table MusketRow) : Except String (List Row) :=
  withCols t ["effective_datetime", "product", "price", "location"] <|
    emap (fun r =>
      match stdParse r.effectiveDatetime r.effectiveDatetime with
      | .error e => .error e
      | .ok p =>
        .ok { supplier := some "Musket"
              location := strSplitGet '-' 0 r.location
              terminal := strSplitGet '-' 1 r.location
              product := r.product
              brand := some ""
              price := r.price
              datetime := combineDT p.1 p.2
              date := p.1
              time := p.2
              change := none }) t.rows

/-- Text before the `" - "` separator of the Offen `Effective` range string. -/
def takeBeforeDashSep : List Char → List Char
  | [] => []
  | ' ' :: '-' :: ' ' :: _ => []
  | c :: cs => c :: takeBeforeDashSep cs

/-- Strict `pd.to_datetime(..., format="%m/%d/%Y %I:%M %p")` element parser. -/
def parseOffen (s : String) : Option DT :=
  match splitOnChar ' ' (takeBeforeDashSep s.data) with
  | [md, hm, ap] =>
    (match splitOnChar '/' md with
     | [ms, ds, ys] => do
       let m ← digitsToNat ms
       let d ← digitsToNat ds
       let y ← digitsToNat ys
       if validDate y m d then some (⟨y, m, d⟩ : DateD) else none
     | _ => none).bind fun dd =>
    (match splitOnChar ':' hm with
     | [hs, ms] => do
       let h ← digitsToNat hs
       let mi ← digitsToNat ms
       if 1 ≤ h && h ≤ 12 && mi ≤ 59 then some (h, mi) else none
     | _ => none).bind fun hm12 =>
    (if String.mk ap = "AM" then some (if hm12.1 = 12 then 0 else hm12.1)
     else if String.mk ap = "PM" then some (if hm12.1 = 12 then 12 else hm12.1 + 12)
     else none).bind fun h24 =>
    some ⟨dd, ⟨h24, hm12.2, 0⟩⟩
  | _ => none

def parseCellOffen : Option String → Except String (Option DT)
  | none => .ok none
  | some s =>
    match parseOffen s with
    | some d => .ok (some d)
    | none => .error "ValueError"

/-- The two boilerplate footer strings dropped from Offen raw tables. -/
def offenBoilerplate : List String :=
  ["Terms Net 10 Days via EFT or ACH",
   "Above prices are subject to midday changes and do not inculde any tax or freight"]

def processOffen (t : Table OffenRow) : Except String (List Row) :=
  withCols t ["Terminal", "Effective", "Product", "Price"] <|
    emap (fun r =>
      match parseCellOffen r.effective with
      | .error e => .error e
      | .ok dt =>
        .ok { supplier := some "Offen"
              location := some ""
              terminal := r.terminal
              product := r.product
              brand := some ""
              price := r.price
              datetime := dt
              date := dt.map DT.date
              time := dt.map DT.time
              change := none })
      (t.rows.filter (fun r => !cellIn r.terminal offenBoilerplate))

/-- The known non-data strings dropped from Rebel raw tables (the source list
contains one entry twice; membership is unaffected). -/
def rebelBoilerplate : List String :=
  ["Cyndi Maurycy|Wholesale Fuels Specialist",
   "Office:  (702) 382-5866",
   "Rebel Oil Company dba ROC",
   "Cell: (725) 377-3598",
   "10650 W. Charleston Blvd., Suite 100Las Vegas, NV 89135",
   "Office:  (702) 382-5866",
   "UT"]

def processRebel (t : Table RebelRow) : Except String (List Row) :=
  withCols t ["Terminal", "Effective Datetime", "Product", "Price"] <|
    emap (fun r =>
      match parseCellMixed (r.effectiveDatetime.map
          (fun s => String.mk (takeUntilDashColon s.data))) with
      | .error e => .error e
      | .ok d =>
        .ok { supplier := some "Rebel"
              location := some ""
              terminal := r.terminal
              product := r.product
              brand := some ""
              price := r.price
              datetime := combineDT (d.map DT.date) (some ⟨0, 0, 0⟩)
              date := d.map DT.date
              time := some ⟨0, 0, 0⟩
              change := none })
      (t.rows.filter (fun r => !cellIn r.terminal rebelBoilerplate))

def processShell (t : Table ShellRow) : Except String (List Row) :=
  withCols t ["Effective Date", "Product Name", "Terminal Name", "Price"] <|
    emap (fun r =>
      match stdParse r.effectiveDate r.effectiveDate with
      | .error e => .error e
      | .ok p =>
        .ok { supplier := some "Shell"
              location := strSplitGet '-' 0 r.terminalName
              terminal := strSplitGet '-' 1 r.terminalName
              product := r.productName
              brand := some ""
              price := r.price
              datetime := combineDT p.1 p.2
              date := p.1
              time := p.2
              change := none }) t.rows

def processSinclair (t : Table SinclairRow) : Except String (List Row) :=
  withCols t ["effective_datetime", "location", "supplier", "brand", "product", "price"] <|
    emap (fun r =>
      match stdParse r.effectiveDatetime r.effectiveDatetime with
      | .error e => .error e
      | .ok p =>
        .ok { supplier := r.supplier
              location := strSplitGet '-' 0 r.location
              terminal := strSplitGet '-' 1 r.location
              product := r.product
              brand := r.brand
              price := r.price
              datetime := combineDT p.1 p.2
              date := p.1
              time := p.2
              change := none }) t.rows

def processSunoco (t : Table SunocoRow) : Except String (List Row) :=
  withCols t ["effective_datetime", "product", "price", "location"] <|
    emap (fun r =>
      match stdParse r.effectiveDatetime r.effectiveDatetime with
      | .error e => .error e
      | .ok p =>
        .ok { supplier := some "Sunoco"
              location := strSplitGet '-' 0 r.location
              terminal := strSplitGet '-' 1 r.location
              product := r.product
              brand := some ""
              price := r.price
              datetime := combineDT p.1 p.2
              date := p.1
              time := p.2
              change := none }) t.rows

/-- The fixed main-location set of the Tartan cascading fill-down. -/
def tartanMainLocations : List String := ["Las Vegas", "Salt Lake"]

/-- Before the cascade the code assigns `df["Location"] = ""` (line 717) and
`df["Terminal"] = None` (line 721): see `tartanInit`. -/
def tartanCascade (curLoc curTerm : Option String) : List Row → List Row
  | [] => []
  | r :: rs =>
    match r.location with
    | none =>
      { r with location := if curLoc.isSome then curLoc else r.location
               terminal := if curTerm.isSome then curTerm else r.terminal }
        :: tartanCascade curLoc curTerm rs
    | some l =>
      if tartanMainLocations.contains l then
        { r with terminal := none } :: tartanCascade (some l) none rs
      else
        { r with location := if curLoc.isSome then curLoc else r.location
                 terminal := some l }
          :: tartanCascade curLoc (some l) rs

/-- `df["Terminal"] = df["Terminal"].fillna(df["Location"])`. -/
def tartanFillTerminal (l : List Row) : List Row :=
  l.map fun r =>
    { r with terminal := match r.terminal with
                         | some v => some v
                         | none => r.location }

/-- Per-row part of `_process_tartan` before the cascade: note that
`Location` is overwritten with the empty string (source line 717) and
`Terminal` is reset to `None` (source line 721), regardless of the raw
`location` cell. -/
def tartanInit (r : TartanRow) : Except String Row :=
  match parseCellMixed r.effectiveDate with
  | .error e => .error e
  | .ok d =>
    .ok { supplier := some "Tartan"
          location := some ""
          terminal := none
          product := r.product
          brand := some ""
          price := r.price
          datetime := combineDT (d.map DT.date) (some ⟨0, 0, 0⟩)
          date := d.map DT.date
          time := some ⟨0, 0, 0⟩
          change := none }

def processTartan (t : Table TartanRow) : Except String (List Row) :=
  withCols t ["Effective Date", "Product", "Price"] <|
    match emap tartanInit t.rows with
    | .error e => .error e
    | .ok mid => .ok (tartanFillTerminal (tartanCascade none none mid))

/-- `str[0] + " " + str[1]` over a whitespace split: `NaN` unless both
tokens exist. -/
def valeroLocationOf (c : Option String) : Option String :=
  c.bind fun s =>
    match (splitOnChar ' ' s.data).get? 0, (splitOnChar ' ' s.data).get? 1 with
    | some a, some b => some (String.mk (a ++ ' ' :: b))
    | _, _ => none

/-- `str[3] + " " + str[4] + " " + str[5]` over a whitespace split. -/
def valeroTerminalOf (c : Option String) : Option String :=
  c.bind fun s =>
    match (splitOnChar ' ' s.data).get? 3, (splitOnChar ' ' s.data).get? 4,
          (splitOnChar ' ' s.data).get? 5 with
    | some a, some b, some cc => some (String.mk (a ++ ' ' :: b ++ ' ' :: cc))
    | _, _, _ => none

def processValero (t : Table ValeroRow) : Except String (List Row) :=
  withCols t ["effective_datetime", "product", "price", "terminal"] <|
    emap (fun r =>
      match stdParse r.effectiveDatetime r.effectiveDatetime with
      | .error e => .error e
      | .ok p =>
        .ok { supplier := some "Valero"
              location := valeroLocationOf r.terminal
              terminal := valeroTerminalOf r.terminal
              product := r.product
              brand := some ""
              price := r.price.map (fun q => q / 100)
              datetime := combineDT p.1 p.2
              date := p.1
              time := p.2
              change := none }) t.rows

/-! ### Sort order of `sort_values(by=["Supplier","Location","Terminal","Product","Datetime"])`

pandas performs a stable lexicographic sort over the five key columns with
string comparison by code point and `NaN`/`NaT` placed last
(`na_position="last"`). -/

def cmpNat (a b : Nat) : Ordering :=
  if a < b then .lt else if b < a then .gt else .eq

def cmpList (c : α → α → Ordering) : List α → List α → Ordering
  | [], [] => .eq
  | [], _ :: _ => .lt
  | _ :: _, [] => .gt
  | a :: as, b :: bs =>
    match c a b with
    | .eq => cmpList c as bs
    | o => o

def cmpChar (a b : Char) : Ordering := cmpNat a.toNat b.toNat

def cmpStr (a b : String) : Ordering := cmpList cmpChar a.data b.data

/-- Missing values sort last within each key level. -/
def cmpOpt (c : α → α → Ordering) : Option α → Option α → Ordering
  | none, none => .eq
  | none, some _ => .gt
  | some _, none => .lt
  | some a, some b => c a b

def ocomb : Ordering → Ordering → Ordering
  | .eq, o => o
  | o, _ => o

/-- Lexicographic combination of two comparators over a pair. -/
def prodCmp (c₁ : α → α → Ordering) (c₂ : β → β → Ordering) :
    α × β → α × β → Ordering :=
  fun p q => ocomb (c₁ p.1 q.1) (c₂ p.2 q.2)

def dtTuple (x : DT) : Nat × (Nat × (Nat × (Nat × (Nat × Nat)))) :=
  (x.date.y, x.date.m, x.date.d, x.time.hh, x.time.mi, x.time.ss)

def cmpNat6 : Nat × (Nat × (Nat × (Nat × (Nat × Nat)))) →
    Nat × (Nat × (Nat × (Nat × (Nat × Nat)))) → Ordering :=
  prodCmp cmpNat (prodCmp cmpNat (prodCmp cmpNat (prodCmp cmpNat (prodCmp cmpNat cmpNat))))

def cmpDT (a b : DT) : Ordering := cmpNat6 (dtTuple a) (dtTuple b)

/-- The five sort-key columns of a row. -/
abbrev SortKey :=
  Option String × (Option String × (Option String × (Option String × Option DT)))

def sortKey (r : Row) : SortKey :=
  (r.supplier, r.location, r.terminal, r.product, r.datetime)

def cmpK5 : SortKey → SortKey → Ordering :=
  prodCmp (cmpOpt cmpStr)
    (prodCmp (cmpOpt cmpStr)
      (prodCmp (cmpOpt cmpStr) (prodCmp (cmpOpt cmpStr) (cmpOpt cmpDT))))

/-- Lexicographic comparison of the five sort-key columns. -/
def cmpRowKey (a b : Row) : Ordering := cmpK5 (sortKey a) (sortKey b)

def rowLe (a b : Row) : Prop := cmpRowKey a b ≠ Ordering.gt

instance : DecidableRel rowLe := fun a b =>
  inferInstanceAs (Decidable (cmpRowKey a b ≠ Ordering.gt))

/-- The stable multi-column sort. -/
def sortRows (l : List Row) : List Row := List.insertionSort rowLe l

/-- `drop_duplicates()` keeping the first occurrence of each full row. -/
def dedupGo (seen : List Row) : List Row → List Row
  | [] => []
  | r :: rs => if r ∈ seen then dedupGo seen rs else r :: dedupGo (r :: seen) rs

def dedupRows (l : List Row) : List Row := dedupGo [] l

instance {ε α : Type} [DecidableEq ε] [DecidableEq α] : DecidableEq (Except ε α) := fun a b =>
  match a, b with
  | .error e, .error f =>
    if h : e = f then isTrue (by rw [h]) else isFalse (fun hh => by cases hh; exact h rfl)
  | .error _, .ok _ => isFalse (fun hh => by cases hh)
  | .ok _, .error _ => isFalse (fun hh => by cases hh)
  | .ok x, .ok y =>
    if h : x = y then isTrue (by rw [h]) else isFalse (fun hh => by cases hh; exact h rfl)

/-- A row with its `Change` column blanked; the merge engine only ever
rewrites this column, every other column is carried unchanged. -/
def eraseChange (r : Row) : Row := { r with change := none }

/-- The grouping key of `groupby(["Supplier","Location","Terminal","Product"])`;
rows with a missing key column belong to no group (`dropna=True`). -/
abbrev GKey := String × String × String × String

def rowGKey (r : Row) : Option GKey :=
  match r.supplier, r.location, r.terminal, r.product with
  | some a, some b, some c, some d => some (a, b, c, d)
  | _, _, _, _ => none

/-- `Change = Price - Price_Yesterday` with `NaN` propagation. -/
def optSub : Option ℚ → Option ℚ → Option ℚ
  | some a, some b => some (a - b)
  | _, _ => none

/-- Change value given the `shift(1)` result (`none` when the row is the
first of its group or in no group). -/
def chg : Option (Option ℚ) → Option ℚ → Option ℚ
  | none, _ => none
  | some py, p => optSub p py

def lookupStore : List (GKey × Option ℚ) → GKey → Option (Option ℚ)
  | [], _ => none
  | e :: s, k => if e.1 = k then some e.2 else lookupStore s k

/-- `groupby([...])["Price"].shift(1)` followed by the price difference: a
single pass threading, per group key, the previous row's price. -/
def goChange (store : List (GKey × Option ℚ)) : List Row → List Row
  | [] => []
  | r :: rs =>
    match rowGKey r with
    | none => { r with change := none } :: goChange store rs
    | some k =>
      { r with change := chg (lookupStore store k) r.price }
        :: goChange ((k, r.price) :: store) rs

def addChange (l : List Row) : List Row := goChange [] l

/-- Merge engine (`process_all_vendors` lines 94-101): `pd.concat` raises
`ValueError` on an empty list of frames, then duplicate suppression, the
five-column sort and the grouped day-over-day change. -/
def combineTables (dfs : List (List Row)) : Except String (List Row) :=
  match dfs with
  | [] => .error "ValueError: No objects to concatenate"
  | _ => .ok (addChange (sortRows (dedupRows dfs.flatten)))

/-- The per-vendor raw frames held in `self.vendor_dfs`: one optional table
per supplier key (`none` models both an absent key and a `None` entry).
`opis`, `eprod` and `chevronTca` have no registered processor (their entries
in `vendor_processors` are commented out). -/
structure VendorData where
  bbenergy : Option (Table BBRow)
  bigwest : Option (Table BigWestRow)
  bradhall : Option (Table BradHallRow)
  chevron : Option (Table ChevronRow)
  chevronTca : Option (Table ChevronRow)
  eprod : Option (Table EprodRow)
  kotaco : Option (Table KotacoRow)
  marathon : Option (Table MarathonRow)
  musket : Option (Table MusketRow)
  offen : Option (Table OffenRow)
  opis : Option (Table OpisRow)
  rebel : Option (Table RebelRow)
  shell : Option (Table ShellRow)
  sinclair : Option (Table SinclairRow)
  sunoco : Option (Table SunocoRow)
  tartan : Option (Table TartanRow)
  valero : Option (Table ValeroRow)

/-- One iteration of the dispatch loop: a vendor that is absent (or `None`)
is skipped, otherwise its processor runs and its canonical frame is appended. -/
def step (o : Option (Table α)) (p : Table α → Except String (List Row))
    (acc : List (List Row)) : Except String (List (List Row)) :=
  match o with
  | none => .ok acc
  | some t =>
    match p t with
    | .error e => .error e
    | .ok df => .ok (acc ++ [df])

/-- The dispatch loop over `vendor_processors` in its (insertion-ordered)
dictionary order. -/
def runVendors (vd : VendorData) : Except String (List (List Row)) :=
  step vd.bbenergy processBbenergy [] >>=
  step vd.bigwest processBigwest >>=
  step vd.bradhall processBradhall >>=
  step vd.chevron processChevron >>=
  step vd.kotaco processKotaco >>=
  step vd.marathon processMarathon >>=
  step vd.musket processMusket >>=
  step vd.offen processOffen >>=
  step vd.rebel processRebel >>=
  step vd.shell processShell >>=
  step vd.sinclair processSinclair >>=
  step vd.sunoco processSunoco >>=
  step vd.tartan processTartan >>=
  step vd.valero processValero

/-- `CanonicalPipeline.process_all_vendors`. -/
def processAllVendors (vd : VendorData) : Except String (List Row) :=
  match runVendors vd with
  | .error e => .error e
  | .ok dfs => combineTables dfs

/-! ### Cross-reference enrichment (`_apply_cross_reference`) -/

/-- One row of the static `Terminal-ProductNames` reference table. -/
structure XRefEntry where
  supplier : Option String
  productDescription : Option String
  terminalOld : Option String
  supplyArea : Option String
  productCode : Option String
  terminalNew : Option String
  productGroup : Option String
  altSupplier : Option String
deriving DecidableEq

/-- An enriched row: the canonical columns plus the right-side columns the
left merge appends. -/
structure ERow where
  base : Row
  productDescription : Option String
  terminalOld : Option String
  supplyArea : Option String
  productCode : Option String
  terminalNew : Option String
  productGroup : Option String
  altSupplier : Option String
deriving DecidableEq

/-- The merge keys: `(Supplier, Product, Terminal)` against
`(Supplier, Product Description, Terminal (Old))`. -/
def xrefMatch (r : Row) (e : XRefEntry) : Bool :=
  r.supplier == e.supplier && r.product == e.productDescription
    && r.terminal == e.terminalOld

def enrichRow (r : Row) (e : XRefEntry) : ERow :=
  ⟨r, e.productDescription, e.terminalOld, e.supplyArea, e.productCode,
   e.terminalNew, e.productGroup, e.altSupplier⟩

def unmatchedRow (r : Row) : ERow :=
  ⟨r, none, none, none, none, none, none, none⟩

/-- Modelled from the spec: `_load_cross_reference` is commented out in the
source, so the static reference table is taken as a parameter here; the
`how="left"` merge itself (source line 120) is embedded faithfully — every
left row yields one output row per matching reference row, or a single row
with null enrichment columns when nothing matches. -/
def applyCrossReference (df : List Row) (crossReference : List XRefEntry) : List ERow :=
  match df with
  | [] => []
  | r :: rest =>
    (match crossReference.filter (xrefMatch r) with
     | [] => [unmatchedRow r]
     | ms => ms.map (enrichRow r)) ++ applyCrossReference rest crossReference

/-! ### Spec-side notions and proof infrastructure -/

/-- Laws making an `Ordering`-valued comparator a decidable linear order. -/
structure CmpLaws (c : α → α → Ordering) : Prop where
  eq_iff : ∀ a b, c a b = .eq ↔ a = b
  swap_eq : ∀ a b, c b a = (c a b).swap
  lt_trans : ∀ {a b d}, c a b = .lt → c b d = .lt → c a d = .lt

/-- The §3 invariant: `Datetime = Date + Time` exactly. -/
def DTConsistent (r : Row) : Prop := r.datetime = combineDT r.date r.time

/-- Every row of a canonical frame satisfies the datetime invariant. -/
def GoodFrame (df : List Row) : Prop := ∀ r ∈ df, DTConsistent r

/-- Datetime order on rows (missing timestamps last). -/
def dtLe (a b : Row) : Prop := cmpOpt cmpDT a.datetime b.datetime ≠ Ordering.gt

/-- The spec formula for the day-over-day change along one group, given the
price carried from the previous group member (`none` at the group head):
each row's `Change` equals its price minus the previous member's price,
with null propagation. -/
def ChangeChain : Option (Option ℚ) → List Row → Prop
  | _, [] => True
  | prev, r :: rs => r.change = chg prev r.price ∧ ChangeChain (some r.price) rs

/-- The rows of the merged table belonging to one
`(Supplier, Location, Terminal, Product)` group, in table order. -/
def groupOf (out : List Row) (k : GKey) : List Row :=
  out.filter (fun r => decide (rowGKey r = some k))

/-- Spec-side token extraction: the i-th whitespace token of a cell. -/
def specTok (c : Option String) (i : Nat) : Option String :=
  c.bind fun s => ((splitOnChar ' ' s.data).get? i).map String.mk

/-- Spec-side space-joined concatenation of two tokens. -/
def specJoin2 : Option String → Option String → Option String
  | some x, some y => some (x ++ " " ++ y)
  | _, _ => none

/-- Spec-side space-joined concatenation of three tokens. -/
def specJoin3 : Option String → Option String → Option String → Option String
  | some x, some y, some z => some (x ++ " " ++ y ++ " " ++ z)
  | _, _, _ => none

/-! ### Concrete example data used by witnesses and counterexamples -/

/-- The vendor state in which every supplier entry is missing. -/
def vdNone : VendorData :=
  ⟨none, none, none, none, none, none, none, none, none, none, none, none,
   none, none, none, none, none⟩

def c1TartanTab : Table TartanRow :=
  ⟨["Effective Date", "Product", "Price", "Location"],
   [⟨some "2024-01-02", some "Las Vegas", some "DSL", some (mkRat 5 1)⟩,
    ⟨some "2024-01-03", none, some "DSL", some (mkRat 8 1)⟩]⟩

def c1State : VendorData := { vdNone with tartan := some c1TartanTab }

def c1Row0 : Row :=
  { supplier := some "Tartan", location := some "", terminal := some "",
    product := some "DSL", brand := some "", price := some (mkRat 5 1),
    datetime := some ⟨⟨2024, 1, 2⟩, ⟨0, 0, 0⟩⟩, date := some ⟨2024, 1, 2⟩,
    time := some ⟨0, 0, 0⟩, change := none }

def c1Row1 : Row :=
  { supplier := some "Tartan", location := some "", terminal := some "",
    product := some "DSL", brand := some "", price := some (mkRat 8 1),
    datetime := some ⟨⟨2024, 1, 3⟩, ⟨0, 0, 0⟩⟩, date := some ⟨2024, 1, 3⟩,
    time := some ⟨0, 0, 0⟩, change := some (mkRat 8 1 - mkRat 5 1) }

def c1Out : List Row := [c1Row0, c1Row1]

def c1Key : GKey := ("Tartan", "", "", "DSL")

def c2BbTab : Table BBRow :=
  ⟨["date", "time", "location", "product", "price"],
   [⟨some "2024-01-02", some "10:30:00", some "LV-T1", some "ULSD", some (mkRat 3 1)⟩]⟩

def c2Row : Row :=
  { supplier := some "BBEnergy", location := some "LV", terminal := some "T1",
    product := some "DSL#2", brand := some "Unbranded", price := some (mkRat 3 1),
    datetime := some ⟨⟨2024, 1, 2⟩, ⟨10, 30, 0⟩⟩, date := some ⟨2024, 1, 2⟩,
    time := some ⟨10, 30, 0⟩, change := none }

def c3RebelTab : Table RebelRow :=
  ⟨["Terminal", "Effective Datetime", "Product", "Price", "Location"],
   [⟨some "North Las Vegas", some "garbage", some "UNL", some (mkRat 2 1)⟩]⟩

/-- The empty, column-free frame `pd.DataFrame()` that `_load_single_vendor`
returns when every decoding attempt fails. -/
def c4EmptyTab : Table BBRow := ⟨[], []⟩

/-- A BBEnergy frame with its header row but zero data rows. -/
def c4HeaderTab : Table BBRow :=
  ⟨["date", "time", "location", "product", "price"], []⟩

def c6ValRaw : ValeroRow :=
  ⟨some "2024-01-02 03:04:05", some "UNL", some "A B C D E F", some (mkRat 350 1)⟩

def c6ValTab : Table ValeroRow :=
  ⟨["effective_datetime", "product", "price", "terminal"], [c6ValRaw]⟩

def c6Row : Row :=
  { supplier := some "Valero", location := some "A B", terminal := some "D E F",
    product := some "UNL", brand := some "", price := some (mkRat 350 1 / 100),
    datetime := some ⟨⟨2024, 1, 2⟩, ⟨3, 4, 5⟩⟩, date := some ⟨2024, 1, 2⟩,
    time := some ⟨3, 4, 5⟩, change := none }

def c6ShortRaw : ValeroRow :=
  ⟨some "2024-01-02 03:04:05", some "UNL", some "X Y", some (mkRat 350 1)⟩

def c6ShortTab : Table ValeroRow :=
  ⟨["effective_datetime", "product", "price", "terminal"], [c6ShortRaw]⟩

def c6ShortRow : Row :=
  { supplier := some "Valero", location := some "X Y", terminal := none,
    product := some "UNL", brand := some "", price := some (mkRat 350 1 / 100),
    datetime := some ⟨⟨2024, 1, 2⟩, ⟨3, 4, 5⟩⟩, date := some ⟨2024, 1, 2⟩,
    time := some ⟨3, 4, 5⟩, change := none }

def c7Tab : Table TartanRow :=
  ⟨["Effective Date", "Product", "Price", "Location"],
   [⟨some "2024-01-02", some "Las Vegas", some "DSL", some (mkRat 5 1)⟩,
    ⟨some "2024-01-02", none, some "DSL", some (mkRat 6 1)⟩]⟩

def c7Row0 : Row :=
  { supplier := some "Tartan", location := some "", terminal := some "",
    product := some "DSL", brand := some "", price := some (mkRat 5 1),
    datetime := some ⟨⟨2024, 1, 2⟩, ⟨0, 0, 0⟩⟩, date := some ⟨2024, 1, 2⟩,
    time := some ⟨0, 0, 0⟩, change := none }

def c7Row1 : Row :=
  { supplier := some "Tartan", location := some "", terminal := some "",
    product := some "DSL", brand := some "", price := some (mkRat 6 1),
    datetime := some ⟨⟨2024, 1, 2⟩, ⟨0, 0, 0⟩⟩, date := some ⟨2024, 1, 2⟩,
    time := some ⟨0, 0, 0⟩, change := none }

def c8r1 : Row :=
  { supplier := some "Tartan", location := some "", terminal := some "",
    product := some "DSL", brand := some "", price := some (mkRat 1 1),
    datetime := some ⟨⟨2024, 1, 2⟩, ⟨0, 0, 0⟩⟩, date := some ⟨2024, 1, 2⟩,
    time := some ⟨0, 0, 0⟩, change := none }

def c8r2 : Row :=
  { supplier := some "Tartan", location := some "", terminal := some "",
    product := some "DSL", brand := some "", price := some (mkRat 2 1),
    datetime := some ⟨⟨2024, 1, 2⟩, ⟨0, 0, 0⟩⟩, date := some ⟨2024, 1, 2⟩,
    time := some ⟨0, 0, 0⟩, change := none }

def c8r3 : Row :=
  { supplier := some "Tartan", location := some "", terminal := some "",
    product := some "DSL", brand := some "", price := some (mkRat 5 1),
    datetime := some ⟨⟨2024, 1, 3⟩, ⟨0, 0, 0⟩⟩, date := some ⟨2024, 1, 3⟩,
    time := some ⟨0, 0, 0⟩, change := none }

/-- Two orderings of the same two normalized vendor frames; the two frames
share a full sort key with different prices (realizable, e.g., when a
Sinclair raw `supplier` cell collides with another vendor's name). -/
def c8tsA : List (List Row) := [[c8r1], [c8r2, c8r3]]

def c8tsB : List (List Row) := [[c8r2, c8r3], [c8r1]]

def c8s1 : Row :=
  { supplier := some "Tartan", location := some "", terminal := some "",
    product := some "DSL", brand := some "", price := some (mkRat 1 1),
    datetime := some ⟨⟨2024, 1, 2⟩, ⟨0, 0, 0⟩⟩, date := some ⟨2024, 1, 2⟩,
    time := some ⟨0, 0, 0⟩, change := none }

def c8s2 : Row :=
  { supplier := some "Tartan", location := some "", terminal := some "",
    product := some "UNL", brand := some "", price := some (mkRat 2 1),
    datetime := some ⟨⟨2024, 1, 2⟩, ⟨0, 0, 0⟩⟩, date := some ⟨2024, 1, 2⟩,
    time := some ⟨0, 0, 0⟩, change := none }

def c8wA : List (List Row) := [[c8s1], [c8s2]]

def c8wB : List (List Row) := [[c8s2], [c8s1]]

def c9Row : Row :=
  { supplier := some "Rebel", location := some "", terminal := some "T9",
    product := some "UNL", brand := some "", price := some (mkRat 2 1),
    datetime := some ⟨⟨2024, 1, 2⟩, ⟨0, 0, 0⟩⟩, date := some ⟨2024, 1, 2⟩,
    time := some ⟨0, 0, 0⟩, change := none }

def c9Xref : List XRefEntry :=
  [⟨some "Shell", some "UNL", some "T9", some "West", some "P1", some "T9-NEW",
    some "Gasoline", none⟩]

def c9Df : List Row := [c9Row]

def c10OpisTab : Table OpisRow :=
  ⟨["supplier", "type", "section"],
   [⟨some "OPIS X", some "u", some "sec", none, none, none, none, none, none,
     none, none, none, none, none⟩]⟩

/-- A state identical to `c1State` except for a populated `opis` entry. -/
def c10State : VendorData :=
  { vdNone with tartan := some c1TartanTab, opis := some c10OpisTab }

/-! ## Lemmas: comparator order theory -/

theorem ocomb_eq_iff (o₁ o₂ : Ordering) :
    ocomb o₁ o₂ = .eq ↔ o₁ = .eq ∧ o₂ = .eq := by
  cases o₁ <;> simp [ocomb]

theorem ocomb_lt_iff (o₁ o₂ : Ordering) :
    ocomb o₁ o₂ = .lt ↔ o₁ = .lt ∨ (o₁ = .eq ∧ o₂ = .lt) := by
  cases o₁ <;> simp [ocomb]

theorem ocomb_swap (o₁ o₂ : Ordering) :
    (ocomb o₁ o₂).swap = ocomb o₁.swap o₂.swap := by
  cases o₁ <;> cases o₂ <;> rfl

theorem CmpLaws.cmp_refl {c : α → α → Ordering} (h : CmpLaws c) (a : α) :
    c a a = .eq := (h.eq_iff a a).2 rfl

theorem cmpNat_laws : CmpLaws cmpNat := by
  refine ⟨?_, ?_, ?_⟩
  · intro a b
    unfold cmpNat
    split_ifs with h1 h2 <;> simp <;> omega
  · intro a b
    unfold cmpNat
    split_ifs <;> first | rfl | omega
  · intro a b d hab hbd
    unfold cmpNat at *
    split_ifs at * <;> first | rfl | omega

theorem prodCmp_laws {c₁ : α → α → Ordering} {c₂ : β → β → Ordering}
    (h₁ : CmpLaws c₁) (h₂ : CmpLaws c₂) : CmpLaws (prodCmp c₁ c₂) := by
  refine ⟨?_, ?_, ?_⟩
  · intro a b
    simp only [prodCmp, ocomb_eq_iff, h₁.eq_iff, h₂.eq_iff, Prod.ext_iff]
  · intro a b
    simp only [prodCmp, ocomb_swap, h₁.swap_eq a.1 b.1, h₂.swap_eq a.2 b.2]
  · intro a b d hab hbd
    simp only [prodCmp, ocomb_lt_iff] at *
    rcases hab with hab | ⟨hab, hab2⟩ <;> rcases hbd with hbd | ⟨hbd, hbd2⟩
    · exact Or.inl (h₁.lt_trans hab hbd)
    · rw [h₁.eq_iff] at hbd
      rw [hbd] at hab
      exact Or.inl hab
    · rw [h₁.eq_iff] at hab
      rw [← hab] at hbd
      exact Or.inl hbd
    · rw [h₁.eq_iff] at hab hbd
      exact Or.inr ⟨(h₁.eq_iff _ _).2 (hab.trans hbd), h₂.lt_trans hab2 hbd2⟩

theorem CmpLaws.comap {c : β → β → Ordering} (h : CmpLaws c) (f : α → β)
    (hf : ∀ a b, f a = f b → a = b) : CmpLaws (fun a b => c (f a) (f b)) := by
  refine ⟨?_, ?_, ?_⟩
  · intro a b
    rw [h.eq_iff]
    exact ⟨fun hh => hf _ _ hh, fun hh => by rw [hh]⟩
  · intro a b
    exact h.swap_eq _ _
  · intro a b d hab hbd
    exact h.lt_trans hab hbd

theorem cmpChar_laws : CmpLaws cmpChar :=
  cmpNat_laws.comap Char.toNat (fun _ _ h => Char.ext (UInt32.toNat.inj h))

theorem cmpList_laws {c : α → α → Ordering} (h : CmpLaws c) :
    CmpLaws (cmpList c) := by
  refine ⟨?_, ?_, ?_⟩
  · intro a
    induction a with
    | nil => intro b; cases b <;> simp [cmpList]
    | cons x xs ih =>
      intro b
      cases b with
      | nil => simp [cmpList]
      | cons y ys =>
        simp only [cmpList]
        rcases hxy : c x y with h1 | h1 | h1 <;>
          simp_all [h.eq_iff, ih ys]
        · intro hh
          rw [hh] at hxy
          rw [h.cmp_refl] at hxy
          cases hxy
        · intro hh
          rw [hh] at hxy
          rw [h.cmp_refl] at hxy
          cases hxy
  · intro a
    induction a with
    | nil => intro b; cases b <;> simp [cmpList, Ordering.swap]
    | cons x xs ih =>
      intro b
      cases b with
      | nil => simp [cmpList, Ordering.swap]
      | cons y ys =>
        simp only [cmpList, h.swap_eq x y]
        rcases hxy : c x y with h1 | h1 | h1 <;> simp [Ordering.swap, ih ys]
  · intro a
    induction a with
    | nil =>
      intro b d hab hbd
      cases d with
      | nil =>
        cases b with
        | nil => cases hab
        | cons y ys => simp [cmpList] at hbd
      | cons z zs => simp [cmpList]
    | cons x xs ih =>
      intro b d hab hbd
      cases b with
      | nil => simp [cmpList] at hab
      | cons y ys =>
        cases d with
        | nil => simp [cmpList] at hbd
        | cons z zs =>
          simp only [cmpList] at hab hbd ⊢
          rcases hxy : c x y with _ | _ | _ <;> rw [hxy] at hab
          · rcases hyz : c y z with _ | _ | _ <;> rw [hyz] at hbd
            · rw [h.lt_trans hxy hyz]
            · have h2 := (h.eq_iff y z).1 hyz
              subst h2
              rw [hxy]
            · cases hbd
          · have h2 := (h.eq_iff x y).1 hxy
            subst h2
            rcases hyz : c x z with _ | _ | _
            · rfl
            · rw [hyz] at hbd
              exact ih hab hbd
            · rw [hyz] at hbd
              simp at hbd
          · cases hab


theorem cmpStr_laws : CmpLaws cmpStr :=
  (cmpList_laws cmpChar_laws).comap String.data
    (fun _ _ h => String.ext h)

theorem cmpOpt_laws {c : α → α → Ordering} (h : CmpLaws c) :
    CmpLaws (cmpOpt c) := by
  refine ⟨?_, ?_, ?_⟩
  · intro a b
    cases a <;> cases b <;> simp [cmpOpt, h.eq_iff]
  · intro a b
    cases a <;> cases b <;> simp [cmpOpt, Ordering.swap]
    exact h.swap_eq _ _
  · intro a b d hab hbd
    cases a <;> cases b <;> cases d <;> simp_all [cmpOpt]
    exact h.lt_trans hab hbd

theorem cmpNat6_laws : CmpLaws cmpNat6 :=
  prodCmp_laws cmpNat_laws
    (prodCmp_laws cmpNat_laws
      (prodCmp_laws cmpNat_laws
        (prodCmp_laws cmpNat_laws (prodCmp_laws cmpNat_laws cmpNat_laws))))

theorem dtTuple_inj : ∀ a b : DT, dtTuple a = dtTuple b → a = b := by
  intro a b h
  obtain ⟨⟨ay, am, ad⟩, ⟨ah, ami, as⟩⟩ := a
  obtain ⟨⟨by1, bm, bd⟩, ⟨bh, bmi, bs⟩⟩ := b
  simp [dtTuple] at h
  simp [h]

theorem cmpDT_laws : CmpLaws cmpDT :=
  cmpNat6_laws.comap dtTuple dtTuple_inj

theorem cmpK5_laws : CmpLaws cmpK5 :=
  prodCmp_laws (cmpOpt_laws cmpStr_laws)
    (prodCmp_laws (cmpOpt_laws cmpStr_laws)
      (prodCmp_laws (cmpOpt_laws cmpStr_laws)
        (prodCmp_laws (cmpOpt_laws cmpStr_laws) (cmpOpt_laws cmpDT_laws))))

theorem CmpLaws.le_trans {c : α → α → Ordering} (h : CmpLaws c) {a b d : α}
    (hab : c a b ≠ .gt) (hbd : c b d ≠ .gt) : c a d ≠ .gt := by
  rcases hab2 : c a b with _ | _ | _
  · rcases hbd2 : c b d with _ | _ | _
    · rw [h.lt_trans hab2 hbd2]
      simp
    · rw [← (h.eq_iff b d).1 hbd2, hab2]
      simp
    · exact absurd hbd2 hbd
  · rw [(h.eq_iff a b).1 hab2]
    exact hbd
  · exact absurd hab2 hab

theorem CmpLaws.le_total {c : α → α → Ordering} (h : CmpLaws c) (a b : α) :
    c a b ≠ .gt ∨ c b a ≠ .gt := by
  rcases hab : c a b with _ | _ | _
  · left
    simp
  · left
    simp
  · right
    rw [h.swap_eq, hab]
    simp [Ordering.swap]

theorem CmpLaws.le_antisymm {c : α → α → Ordering} (h : CmpLaws c) {a b : α}
    (hab : c a b ≠ .gt) (hba : c b a ≠ .gt) : a = b := by
  rcases hab2 : c a b with _ | _ | _
  · rw [h.swap_eq, hab2] at hba
    simp [Ordering.swap] at hba
  · exact (h.eq_iff a b).1 hab2
  · exact absurd hab2 hab

instance : IsTrans Row rowLe :=
  ⟨fun _ _ _ hab hbc => cmpK5_laws.le_trans hab hbc⟩

instance : IsTotal Row rowLe :=
  ⟨fun a b => cmpK5_laws.le_total (sortKey a) (sortKey b)⟩

theorem rowLe_antisymm_key {a b : Row} (hab : rowLe a b) (hba : rowLe b a) :
    sortKey a = sortKey b :=
  cmpK5_laws.le_antisymm hab hba

/-! ## Lemmas: sort, deduplication, change pass -/

theorem sortRows_sorted (l : List Row) : List.Sorted rowLe (sortRows l) :=
  List.sorted_insertionSort rowLe l

theorem sortRows_perm (l : List Row) : (sortRows l).Perm l :=
  List.perm_insertionSort rowLe l

theorem mem_dedupGo {r : Row} :
    ∀ {l seen : List Row}, r ∈ dedupGo seen l ↔ (r ∈ l ∧ r ∉ seen) := by
  intro l
  induction l with
  | nil =>
    intro seen
    simp [dedupGo]
  | cons a t ih =>
    intro seen
    simp only [dedupGo]
    split_ifs with ha
    · rw [ih]
      by_cases hra : r = a <;> simp [hra, ha]
    · by_cases hra : r = a <;> simp [hra, ha, ih, List.mem_cons]

theorem nodup_dedupGo : ∀ {l seen : List Row}, (dedupGo seen l).Nodup := by
  intro l
  induction l with
  | nil =>
    intro seen
    simp [dedupGo]
  | cons a t ih =>
    intro seen
    simp only [dedupGo]
    split_ifs with ha
    · exact ih
    · rw [List.nodup_cons]
      refine ⟨?_, ih⟩
      rw [mem_dedupGo]
      simp

theorem mem_dedupRows {r : Row} {l : List Row} : r ∈ dedupRows l ↔ r ∈ l := by
  rw [dedupRows, mem_dedupGo]
  simp

theorem dedupRows_perm_of_perm {l₁ l₂ : List Row} (h : l₁.Perm l₂) :
    (dedupRows l₁).Perm (dedupRows l₂) :=
  (List.perm_ext_iff_of_nodup nodup_dedupGo nodup_dedupGo).2
    (fun a => by rw [mem_dedupGo, mem_dedupGo]; simp [h.mem_iff])

theorem rowGKey_set_change (r : Row) (c : Option ℚ) :
    rowGKey { r with change := c } = rowGKey r := rfl

theorem goChange_map_erase :
    ∀ (l : List Row) (store), (goChange store l).map eraseChange = l.map eraseChange := by
  intro l
  induction l with
  | nil =>
    intro store
    rfl
  | cons r rs ih =>
    intro store
    simp only [goChange]
    rcases hk : rowGKey r with _ | k <;> simp [eraseChange, ih]

theorem goChange_chain (k : GKey) :
    ∀ (l : List Row) (store),
      ChangeChain (lookupStore store k)
        ((goChange store l).filter (fun r => decide (rowGKey r = some k))) := by
  intro l
  induction l with
  | nil =>
    intro store
    simp [goChange, ChangeChain]
  | cons r rs ih =>
    intro store
    simp only [goChange]
    rcases hk : rowGKey r with _ | k2
    · rw [List.filter_cons]
      simp only [rowGKey_set_change, hk]
      simp only [decide_eq_true_eq]
      rw [if_neg (by simp)]
      exact ih store
    · by_cases hkk : k2 = k
      · subst hkk
        rw [List.filter_cons]
        simp only [rowGKey_set_change, hk]
        rw [if_pos (by simp)]
        refine ⟨rfl, ?_⟩
        have h2 := ih ((k2, r.price) :: store)
        simpa [lookupStore] using h2
      · rw [List.filter_cons]
        simp only [rowGKey_set_change, hk]
        rw [if_neg (by simp [hkk])]
        have h2 := ih ((k2, r.price) :: store)
        simpa [lookupStore, hkk] using h2

theorem chain_head {g : List Row} (h : ChangeChain none g) :
    ∀ r, g.head? = some r → r.change = none := by
  cases g with
  | nil =>
    intro r hr
    cases hr
  | cons r0 rs =>
    intro r hr
    cases hr
    exact h.1

theorem chain_get :
    ∀ (g : List Row) (p : Option (Option ℚ)), ChangeChain p g →
      ∀ i r₀ r₁, g.get? i = some r₀ → g.get? (i + 1) = some r₁ →
        r₁.change = optSub r₁.price r₀.price := by
  intro g
  induction g with
  | nil =>
    intro p _ i r₀ r₁ h0 _
    cases h0
  | cons r rs ih =>
    intro p h i r₀ r₁ h0 h1
    cases i with
    | zero =>
      cases h0
      cases rs with
      | nil => cases h1
      | cons s ss =>
        cases h1
        exact h.2.1
    | succ j =>
      exact ih (some r.price) h.2 j r₀ r₁ h0 h1

/-! ## Lemmas: groups, datetime order, traversal plumbing -/

theorem rowGKey_fields {r : Row} {k : GKey} (h : rowGKey r = some k) :
    r.supplier = some k.1 ∧ r.location = some k.2.1 ∧ r.terminal = some k.2.2.1
      ∧ r.product = some k.2.2.2 := by
  unfold rowGKey at h
  rcases hs : r.supplier with _ | a <;> rw [hs] at h
  · cases h
  · rcases hl : r.location with _ | b <;> rw [hl] at h
    · cases h
    · rcases ht : r.terminal with _ | c <;> rw [ht] at h
      · cases h
      · rcases hp : r.product with _ | d <;> rw [hp] at h
        · cases h
        · cases h
          exact ⟨rfl, rfl, rfl, rfl⟩

theorem cmpOptStr_refl (x : Option String) : cmpOpt cmpStr x x = .eq :=
  (cmpOpt_laws cmpStr_laws).cmp_refl x

theorem rowLe_dt_of_same_key {a b : Row} {k : GKey} (ha : rowGKey a = some k)
    (hb : rowGKey b = some k) (h : rowLe a b) : dtLe a b := by
  obtain ⟨hs, hl, ht, hp⟩ := rowGKey_fields ha
  obtain ⟨hs2, hl2, ht2, hp2⟩ := rowGKey_fields hb
  unfold rowLe cmpRowKey cmpK5 at h
  unfold dtLe
  simp only [sortKey, prodCmp, hs, hl, ht, hp, hs2, hl2, ht2, hp2,
    cmpOptStr_refl, ocomb] at h
  exact h

theorem dt_sorted_groupOf {out s : List Row} (k : GKey)
    (hmap : out.map eraseChange = s.map eraseChange)
    (hs : List.Sorted rowLe s) : List.Sorted dtLe (groupOf out k) := by
  have h1 : List.Pairwise rowLe
      (s.filter (fun r => decide (rowGKey r = some k))) :=
    List.Pairwise.filter _ hs
  have h2 : List.Pairwise dtLe
      (s.filter (fun r => decide (rowGKey r = some k))) := by
    refine h1.imp_of_mem ?_
    intro a b hma hmb hr
    have hka := (List.mem_filter.1 hma).2
    have hkb := (List.mem_filter.1 hmb).2
    exact rowLe_dt_of_same_key (of_decide_eq_true hka) (of_decide_eq_true hkb) hr
  have hcomm : (groupOf out k).map eraseChange
      = (s.filter (fun r => decide (rowGKey r = some k))).map eraseChange := by
    unfold groupOf
    have e1 := List.filter_map (p := fun r => decide (rowGKey r = some k))
      eraseChange out
    have e2 := List.filter_map (p := fun r => decide (rowGKey r = some k))
      eraseChange s
    calc (out.filter (fun r => decide (rowGKey r = some k))).map eraseChange
        = (out.map eraseChange).filter (fun r => decide (rowGKey r = some k)) := by
          rw [e1]; rfl
      _ = (s.map eraseChange).filter (fun r => decide (rowGKey r = some k)) := by
          rw [hmap]
      _ = (s.filter (fun r => decide (rowGKey r = some k))).map eraseChange := by
          rw [e2]; rfl
  have h3 : List.Pairwise dtLe ((groupOf out k).map eraseChange) := by
    rw [hcomm]
    rw [List.pairwise_map]
    exact h2.imp (fun hh => hh)
  rw [List.pairwise_map] at h3
  exact h3.imp (fun hh => hh)

theorem emap_ok_mem {f : α → Except String β} :
    ∀ {l : List α} {out : List β}, emap f l = .ok out →
      ∀ {b}, b ∈ out → ∃ a, a ∈ l ∧ f a = .ok b := by
  intro l
  induction l with
  | nil =>
    intro out h b hb
    cases h
    cases hb
  | cons a t ih =>
    intro out h b hb
    unfold emap at h
    rcases hfa : f a with _ | b0 <;> rw [hfa] at h
    · cases h
    · rcases hrest : emap f t with _ | bs <;> rw [hrest] at h
      · cases h
      · cases h
        rcases List.mem_cons.1 hb with hb2 | hb2
        · exact ⟨a, List.mem_cons_self a t, by rw [hfa, hb2]⟩
        · obtain ⟨a2, ha2, hfa2⟩ := ih hrest hb2
          exact ⟨a2, List.mem_cons_of_mem a ha2, hfa2⟩

theorem emap_ok_get {f : α → Except String β} :
    ∀ {l : List α} {out : List β}, emap f l = .ok out →
      l.length = out.length ∧
        ∀ i a, l.get? i = some a → ∃ b, out.get? i = some b ∧ f a = .ok b := by
  intro l
  induction l with
  | nil =>
    intro out h
    cases h
    exact ⟨rfl, fun i a ha => by cases ha⟩
  | cons a t ih =>
    intro out h
    unfold emap at h
    rcases hfa : f a with _ | b0 <;> rw [hfa] at h
    · cases h
    · rcases hrest : emap f t with _ | bs <;> rw [hrest] at h
      · cases h
      · cases h
        obtain ⟨hlen, hget⟩ := ih hrest
        refine ⟨by simp [hlen], ?_⟩
        intro i a2 ha2
        cases i with
        | zero =>
          cases ha2
          exact ⟨b0, rfl, hfa⟩
        | succ j => exact hget j a2 ha2

theorem except_bind_ok {x : Except String α} {f : α → Except String β} {out : β}
    (h : (x >>= f) = .ok out) : ∃ y, x = .ok y ∧ f y = .ok out := by
  cases x with
  | error e => cases h
  | ok y => exact ⟨y, rfl, h⟩

theorem step_ok_good {P : List Row → Prop} {o : Option (Table α)}
    {p : Table α → Except String (List Row)} {acc out : List (List Row)}
    (hp : ∀ t df, p t = .ok df → P df) (hacc : ∀ df ∈ acc, P df)
    (h : step o p acc = .ok out) : ∀ df ∈ out, P df := by
  cases o with
  | none =>
    cases h
    exact hacc
  | some t =>
    simp only [step] at h
    rcases hpt : p t with _ | df <;> rw [hpt] at h
    · cases h
    · cases h
      intro df2 hdf2
      rcases List.mem_append.1 hdf2 with h2 | h2
      · exact hacc df2 h2
      · rcases List.mem_cons.1 h2 with h3 | h3
        · rw [h3]
          exact hp t df hpt
        · cases h3

/-! ## Lemmas: the datetime invariant of each vendor processor -/

theorem combineDT_proj (dt : Option DT) :
    combineDT (dt.map DT.date) (dt.map DT.time) = dt := by
  cases dt with
  | none => rfl
  | some x =>
    cases x
    rfl

theorem processBbenergy_good : ∀ (t : Table BBRow) (out : List Row),
    processBbenergy t = .ok out → GoodFrame out := by
  intro t out h r hr
  unfold processBbenergy withCols at h
  rcases hreq : requireCols t ["date", "time", "location", "product", "price"] with _ | u <;>
    rw [hreq] at h
  · cases h
  · obtain ⟨a, _, hfa⟩ := emap_ok_mem h hr
    rcases hsp : stdParse a.date a.time with _ | p <;> rw [hsp] at hfa
    · cases hfa
    · cases hfa
      rfl

theorem processBigwest_good : ∀ (t : Table BigWestRow) (out : List Row),
    processBigwest t = .ok out → GoodFrame out := by
  intro t out h r hr
  unfold processBigwest withCols at h
  rcases hreq : requireCols t ["date", "time", "location", "product", "price"] with _ | u <;>
    rw [hreq] at h
  · cases h
  · obtain ⟨a, _, hfa⟩ := emap_ok_mem h hr
    rcases hsp : stdParse a.date a.time with _ | p <;> rw [hsp] at hfa
    · cases hfa
    · cases hfa
      rfl

theorem processBradhall_good : ∀ (t : Table BradHallRow) (out : List Row),
    processBradhall t = .ok out → GoodFrame out := by
  intro t out h r hr
  unfold processBradhall withCols at h
  rcases hreq : requireCols t ["date", "time", "product", "price"] with _ | u <;>
    rw [hreq] at h
  · cases h
  · obtain ⟨a, _, hfa⟩ := emap_ok_mem h hr
    rcases hsp : stdParse a.date a.time with _ | p <;> rw [hsp] at hfa
    · cases hfa
    · cases hfa
      rfl

theorem processChevron_good : ∀ (t : Table ChevronRow) (out : List Row),
    processChevron t = .ok out → GoodFrame out := by
  intro t out h r hr
  unfold processChevron withCols at h
  rcases hreq : requireCols t ["Effective_Date", "Terminal", "Product", "Price"] with _ | u <;>
    rw [hreq] at h
  · cases h
  · obtain ⟨a, _, hfa⟩ := emap_ok_mem h hr
    rcases hsp : stdParse a.effectiveDate a.effectiveDate with _ | p <;> rw [hsp] at hfa
    · cases hfa
    · cases hfa
      rfl

theorem processKotaco_good : ∀ (t : Table KotacoRow) (out : List Row),
    processKotaco t = .ok out → GoodFrame out := by
  intro t out h r hr
  unfold processKotaco withCols at h
  rcases hreq : requireCols t ["Effective_Date", "Supplier", "Terminal", "Product", "Price"]
      with _ | u <;> rw [hreq] at h
  · cases h
  · obtain ⟨a, _, hfa⟩ := emap_ok_mem h hr
    rcases hsp : stdParse a.effectiveDate a.effectiveDate with _ | p <;> rw [hsp] at hfa
    · cases hfa
    · cases hfa
      rfl

theorem processMarathon_good : ∀ (t : Table MarathonRow) (out : List Row),
    processMarathon t = .ok out → GoodFrame out := by
  intro t out h r hr
  unfold processMarathon withCols at h
  rcases hreq : requireCols t ["effective_datetime", "product", "price", "terminal"]
      with _ | u <;> rw [hreq] at h
  · cases h
  · obtain ⟨a, _, hfa⟩ := emap_ok_mem h hr
    rcases hsp : stdParse a.effectiveDatetime a.effectiveDatetime with _ | p <;> rw [hsp] at hfa
    · cases hfa
    · cases hfa
      rfl

theorem processMusket_good : ∀ (t : Table MusketRow) (out : List Row),
    processMusket t = .ok out → GoodFrame out := by
  intro t out h r hr
  unfold processMusket withCols at h
  rcases hreq : requireCols t ["effective_datetime", "product", "price", "location"]
      with _ | u <;> rw [hreq] at h
  · cases h
  · obtain ⟨a, _, hfa⟩ := emap_ok_mem h hr
    rcases hsp : stdParse a.effectiveDatetime a.effectiveDatetime with _ | p <;> rw [hsp] at hfa
    · cases hfa
    · cases hfa
      rfl

theorem processOffen_good : ∀ (t : Table OffenRow) (out : List Row),
    processOffen t = .ok out → GoodFrame out := by
  intro t out h r hr
  unfold processOffen withCols at h
  rcases hreq : requireCols t ["Terminal", "Effective", "Product", "Price"] with _ | u <;>
    rw [hreq] at h
  · cases h
  · obtain ⟨a, _, hfa⟩ := emap_ok_mem h hr
    rcases hp : parseCellOffen a.effective with _ | dt <;> rw [hp] at hfa
    · cases hfa
    · cases hfa
      exact (combineDT_proj dt).symm

theorem processRebel_good : ∀ (t : Table RebelRow) (out : List Row),
    processRebel t = .ok out → GoodFrame out := by
  intro t out h r hr
  unfold processRebel withCols at h
  rcases hreq : requireCols t ["Terminal", "Effective Datetime", "Product", "Price"]
      with _ | u <;> rw [hreq] at h
  · cases h
  · obtain ⟨a, _, hfa⟩ := emap_ok_mem h hr
    rcases hp : parseCellMixed (a.effectiveDatetime.map
        (fun s => String.mk (takeUntilDashColon s.data))) with _ | d <;> rw [hp] at hfa
    · cases hfa
    · cases hfa
      rfl

theorem processShell_good : ∀ (t : Table ShellRow) (out : List Row),
    processShell t = .ok out → GoodFrame out := by
  intro t out h r hr
  unfold processShell withCols at h
  rcases hreq : requireCols t ["Effective Date", "Product Name", "Terminal Name", "Price"]
      with _ | u <;> rw [hreq] at h
  · cases h
  · obtain ⟨a, _, hfa⟩ := emap_ok_mem h hr
    rcases hsp : stdParse a.effectiveDate a.effectiveDate with _ | p <;> rw [hsp] at hfa
    · cases hfa
    · cases hfa
      rfl

theorem processSinclair_good : ∀ (t : Table SinclairRow) (out : List Row),
    processSinclair t = .ok out → GoodFrame out := by
  intro t out h r hr
  unfold processSinclair withCols at h
  rcases hreq : requireCols t
      ["effective_datetime", "location", "supplier", "brand", "product", "price"]
      with _ | u <;> rw [hreq] at h
  · cases h
  · obtain ⟨a, _, hfa⟩ := emap_ok_mem h hr
    rcases hsp : stdParse a.effectiveDatetime a.effectiveDatetime with _ | p <;> rw [hsp] at hfa
    · cases hfa
    · cases hfa
      rfl

theorem processSunoco_good : ∀ (t : Table SunocoRow) (out : List Row),
    processSunoco t = .ok out → GoodFrame out := by
  intro t out h r hr
  unfold processSunoco withCols at h
  rcases hreq : requireCols t ["effective_datetime", "product", "price", "location"]
      with _ | u <;> rw [hreq] at h
  · cases h
  · obtain ⟨a, _, hfa⟩ := emap_ok_mem h hr
    rcases hsp : stdParse a.effectiveDatetime a.effectiveDatetime with _ | p <;> rw [hsp] at hfa
    · cases hfa
    · cases hfa
      rfl

theorem tartanCascade_dt :
    ∀ (l : List Row) (cl ct : Option String) (r : Row), r ∈ tartanCascade cl ct l →
      ∃ r₀ ∈ l, r.datetime = r₀.datetime ∧ r.date = r₀.date ∧ r.time = r₀.time := by
  intro l
  induction l with
  | nil =>
    intro cl ct r hr
    simp [tartanCascade] at hr
  | cons x xs ih =>
    intro cl ct r hr
    simp only [tartanCascade] at hr
    rcases hl : x.location with _ | lv <;> rw [hl] at hr
    · rcases List.mem_cons.1 hr with h2 | h2
      · exact ⟨x, List.mem_cons_self x xs, by rw [h2]; exact ⟨rfl, rfl, rfl⟩⟩
      · obtain ⟨r₀, hr₀, he⟩ := ih cl ct r h2
        exact ⟨r₀, List.mem_cons_of_mem x hr₀, he⟩
    · by_cases hc : tartanMainLocations.contains lv = true
      · simp only [hc, if_true] at hr
        rcases List.mem_cons.1 hr with h2 | h2
        · exact ⟨x, List.mem_cons_self x xs, by rw [h2]; exact ⟨rfl, rfl, rfl⟩⟩
        · obtain ⟨r₀, hr₀, he⟩ := ih (some lv) none r h2
          exact ⟨r₀, List.mem_cons_of_mem x hr₀, he⟩
      · simp only [hc, if_false] at hr
        rcases List.mem_cons.1 hr with h2 | h2
        · exact ⟨x, List.mem_cons_self x xs, by rw [h2]; exact ⟨rfl, rfl, rfl⟩⟩
        · obtain ⟨r₀, hr₀, he⟩ := ih cl (some lv) r h2
          exact ⟨r₀, List.mem_cons_of_mem x hr₀, he⟩

theorem tartanFill_dt {l : List Row} {r : Row} (hr : r ∈ tartanFillTerminal l) :
    ∃ r₀ ∈ l, r.datetime = r₀.datetime ∧ r.date = r₀.date ∧ r.time = r₀.time := by
  unfold tartanFillTerminal at hr
  obtain ⟨r₀, hr₀, he⟩ := List.mem_map.1 hr
  exact ⟨r₀, hr₀, by rw [← he]; exact ⟨rfl, rfl, rfl⟩⟩

theorem processTartan_good : ∀ (t : Table TartanRow) (out : List Row),
    processTartan t = .ok out → GoodFrame out := by
  intro t out h r hr
  unfold processTartan withCols at h
  rcases hreq : requireCols t ["Effective Date", "Product", "Price"] with _ | u <;>
    rw [hreq] at h
  · cases h
  · rcases hmid : emap tartanInit t.rows with _ | mid <;> rw [hmid] at h
    · cases h
    · cases h
      obtain ⟨r₁, hr₁, he₁⟩ := tartanFill_dt hr
      obtain ⟨r₀, hr₀, he₀⟩ := tartanCascade_dt mid none none r₁ hr₁
      obtain ⟨a, _, hfa⟩ := emap_ok_mem hmid hr₀
      unfold tartanInit at hfa
      rcases hp : parseCellMixed a.effectiveDate with _ | d <;> rw [hp] at hfa
      · cases hfa
      · cases hfa
        unfold DTConsistent
        rw [he₁.1, he₁.2.1, he₁.2.2, he₀.1, he₀.2.1, he₀.2.2]

theorem processValero_good : ∀ (t : Table ValeroRow) (out : List Row),
    processValero t = .ok out → GoodFrame out := by
  intro t out h r hr
  unfold processValero withCols at h
  rcases hreq : requireCols t ["effective_datetime", "product", "price", "terminal"]
      with _ | u <;> rw [hreq] at h
  · cases h
  · obtain ⟨a, _, hfa⟩ := emap_ok_mem h hr
    rcases hsp : stdParse a.effectiveDatetime a.effectiveDatetime with _ | p <;> rw [hsp] at hfa
    · cases hfa
    · cases hfa
      rfl

/-! ## Lemmas: pipeline plumbing -/

theorem runVendors_good (vd : VendorData) {dfs : List (List Row)}
    (h : runVendors vd = .ok dfs) : ∀ df ∈ dfs, GoodFrame df := by
  unfold runVendors at h
  obtain ⟨a13, h13, hs14⟩ := except_bind_ok h
  obtain ⟨a12, h12, hs13⟩ := except_bind_ok h13
  obtain ⟨a11, h11, hs12⟩ := except_bind_ok h12
  obtain ⟨a10, h10, hs11⟩ := except_bind_ok h11
  obtain ⟨a9, h9, hs10⟩ := except_bind_ok h10
  obtain ⟨a8, h8, hs9⟩ := except_bind_ok h9
  obtain ⟨a7, h7, hs8⟩ := except_bind_ok h8
  obtain ⟨a6, h6, hs7⟩ := except_bind_ok h7
  obtain ⟨a5, h5, hs6⟩ := except_bind_ok h6
  obtain ⟨a4, h4, hs5⟩ := except_bind_ok h5
  obtain ⟨a3, h3, hs4⟩ := except_bind_ok h4
  obtain ⟨a2, h2, hs3⟩ := except_bind_ok h3
  obtain ⟨a1, h1, hs2⟩ := except_bind_ok h2
  have g1 : ∀ df ∈ a1, GoodFrame df :=
    step_ok_good (fun t df hp => processBbenergy_good t df hp)
      (fun df hdf => absurd hdf (List.not_mem_nil df)) h1
  have g2 : ∀ df ∈ a2, GoodFrame df :=
    step_ok_good (fun t df hp => processBigwest_good t df hp) g1 hs2
  have g3 : ∀ df ∈ a3, GoodFrame df :=
    step_ok_good (fun t df hp => processBradhall_good t df hp) g2 hs3
  have g4 : ∀ df ∈ a4, GoodFrame df :=
    step_ok_good (fun t df hp => processChevron_good t df hp) g3 hs4
  have g5 : ∀ df ∈ a5, GoodFrame df :=
    step_ok_good (fun t df hp => processKotaco_good t df hp) g4 hs5
  have g6 : ∀ df ∈ a6, GoodFrame df :=
    step_ok_good (fun t df hp => processMarathon_good t df hp) g5 hs6
  have g7 : ∀ df ∈ a7, GoodFrame df :=
    step_ok_good (fun t df hp => processMusket_good t df hp) g6 hs7
  have g8 : ∀ df ∈ a8, GoodFrame df :=
    step_ok_good (fun t df hp => processOffen_good t df hp) g7 hs8
  have g9 : ∀ df ∈ a9, GoodFrame df :=
    step_ok_good (fun t df hp => processRebel_good t df hp) g8 hs9
  have g10 : ∀ df ∈ a10, GoodFrame df :=
    step_ok_good (fun t df hp => processShell_good t df hp) g9 hs10
  have g11 : ∀ df ∈ a11, GoodFrame df :=
    step_ok_good (fun t df hp => processSinclair_good t df hp) g10 hs11
  have g12 : ∀ df ∈ a12, GoodFrame df :=
    step_ok_good (fun t df hp => processSunoco_good t df hp) g11 hs12
  have g13 : ∀ df ∈ a13, GoodFrame df :=
    step_ok_good (fun t df hp => processTartan_good t df hp) g12 hs13
  exact step_ok_good (fun t df hp => processValero_good t df hp) g13 hs14

theorem mem_goChange :
    ∀ (l : List Row) (store) {r : Row}, r ∈ goChange store l →
      ∃ r₀ ∈ l, eraseChange r = eraseChange r₀ := by
  intro l
  induction l with
  | nil =>
    intro store r hr
    simp [goChange] at hr
  | cons x xs ih =>
    intro store r hr
    simp only [goChange] at hr
    rcases hk : rowGKey x with _ | k <;> rw [hk] at hr <;>
      rcases List.mem_cons.1 hr with h2 | h2
    · exact ⟨x, List.mem_cons_self x xs, by rw [h2]; rfl⟩
    · obtain ⟨r₀, hr₀, he⟩ := ih store h2
      exact ⟨r₀, List.mem_cons_of_mem x hr₀, he⟩
    · exact ⟨x, List.mem_cons_self x xs, by rw [h2]; rfl⟩
    · obtain ⟨r₀, hr₀, he⟩ := ih ((k, x.price) :: store) h2
      exact ⟨r₀, List.mem_cons_of_mem x hr₀, he⟩

theorem dtc_of_erase {r r₀ : Row} (h : eraseChange r = eraseChange r₀)
    (h₀ : DTConsistent r₀) : DTConsistent r := by
  unfold DTConsistent
  have h1 := congrArg Row.datetime h
  have h2 := congrArg Row.date h
  have h3 := congrArg Row.time h
  simp only [eraseChange] at h1 h2 h3
  rw [h1, h2, h3]
  exact h₀

/-- Unpack a successful pipeline run into its vendor frames and merge input. -/
theorem processAllVendors_ok {vd : VendorData} {out : List Row}
    (h : processAllVendors vd = .ok out) :
    ∃ dfs, runVendors vd = .ok dfs ∧ dfs ≠ [] ∧
      out = addChange (sortRows (dedupRows dfs.flatten)) := by
  unfold processAllVendors at h
  rcases hrv : runVendors vd with _ | dfs <;> rw [hrv] at h
  · cases h
  · cases dfs with
    | nil => cases h
    | cons d ds =>
      refine ⟨d :: ds, rfl, by simp, ?_⟩
      unfold combineTables at h
      cases h
      rfl

/-! ## Lemmas: Valero split spelling, sorted uniqueness -/

theorem mk_append_space (x y : List Char) :
    String.mk (x ++ ' ' :: y) = String.mk x ++ " " ++ String.mk y := by
  apply String.ext
  simp [String.data_append]

theorem valeroLocationOf_spec (c : Option String) :
    valeroLocationOf c = specJoin2 (specTok c 0) (specTok c 1) := by
  cases c with
  | none => rfl
  | some s =>
    unfold valeroLocationOf specJoin2 specTok
    rcases h0 : (splitOnChar ' ' s.data)[0]? with _ | x <;>
      rcases h1 : (splitOnChar ' ' s.data)[1]? with _ | y <;>
        simp [h0, h1, mk_append_space]

theorem valeroTerminalOf_spec (c : Option String) :
    valeroTerminalOf c
      = specJoin3 (specTok c 3) (specTok c 4) (specTok c 5) := by
  cases c with
  | none => rfl
  | some s =>
    unfold valeroTerminalOf specJoin3 specTok
    rcases h0 : (splitOnChar ' ' s.data)[3]? with _ | x <;>
      rcases h1 : (splitOnChar ' ' s.data)[4]? with _ | y <;>
        rcases h2 : (splitOnChar ' ' s.data)[5]? with _ | z <;>
          simp [h0, h1, h2, mk_append_space]
    apply String.ext
    simp [String.data_append]

theorem sorted_eq_of_perm_nodupKeys :
    ∀ {l₁ l₂ : List Row}, l₁.Perm l₂ → List.Sorted rowLe l₁ → List.Sorted rowLe l₂ →
      (l₁.map sortKey).Nodup → l₁ = l₂ := by
  intro l₁
  induction l₁ with
  | nil =>
    intro l₂ hp _ _ _
    exact (hp.symm.eq_nil).symm
  | cons a t ih =>
    intro l₂ hp hs₁ hs₂ hnd
    cases l₂ with
    | nil => exact absurd hp.eq_nil (List.cons_ne_nil a t)
    | cons b t₂ =>
      have hab : a = b := by
        have hma : a ∈ b :: t₂ := hp.subset (List.mem_cons_self a t)
        have hmb : b ∈ a :: t := hp.symm.subset (List.mem_cons_self b t₂)
        rcases List.mem_cons.1 hma with h1 | h1
        · exact h1
        rcases List.mem_cons.1 hmb with h2 | h2
        · exact h2.symm
        have hle₁ : rowLe a b := (List.sorted_cons.1 hs₁).1 b h2
        have hle₂ : rowLe b a := (List.sorted_cons.1 hs₂).1 a h1
        have hk : sortKey a = sortKey b := rowLe_antisymm_key hle₁ hle₂
        exfalso
        have hmem : sortKey b ∈ t.map sortKey := List.mem_map_of_mem _ h2
        rw [← hk] at hmem
        have hnd2 : (sortKey a :: t.map sortKey).Nodup := by simpa using hnd
        exact (List.nodup_cons.1 hnd2).1 hmem
      subst hab
      have hp2 : t.Perm t₂ := hp.cons_inv
      have hnd2 : (t.map sortKey).Nodup := by
        have : (sortKey a :: t.map sortKey).Nodup := by simpa using hnd
        exact (List.nodup_cons.1 this).2
      rw [ih hp2 (List.sorted_cons.1 hs₁).2 (List.sorted_cons.1 hs₂).2 hnd2]

/-! ## The claims -/

/-- C1: in the merged canonical table of `process_all_vendors`, within each
`(Supplier, Location, Terminal, Product)` group in table order (which is
Datetime-ascending), the first row's `Change` is null, and every later row's
`Change` equals its `Price` minus the immediately preceding group row's
`Price`, with null propagating through the subtraction. -/
theorem C1_change_per_group :
    ∀ (vd : VendorData) (out : List Row), processAllVendors vd = .ok out →
      ∀ k : GKey,
        (∀ r, (groupOf out k).head? = some r → r.change = none) ∧
        (∀ i r₀ r₁, (groupOf out k).get? i = some r₀ →
          (groupOf out k).get? (i + 1) = some r₁ →
          r₁.change = optSub r₁.price r₀.price) ∧
        List.Sorted dtLe (groupOf out k) := by
  intro vd out h k
  obtain ⟨dfs, hrv, hne, hout⟩ := processAllVendors_ok h
  subst hout
  have hchain : ChangeChain none
      (groupOf (addChange (sortRows (dedupRows dfs.flatten))) k) := by
    have h2 := goChange_chain k (sortRows (dedupRows dfs.flatten)) []
    simpa [groupOf, addChange, lookupStore] using h2
  refine ⟨chain_head hchain, chain_get _ none hchain, ?_⟩
  exact dt_sorted_groupOf k (goChange_map_erase (sortRows (dedupRows dfs.flatten)) [])
    (sortRows_sorted _)

/-- C1 witness: a concrete two-row Tartan run; the group's first row has
null `Change` and the second row's `Change` is its price minus the first
row's price. -/
theorem C1_witness :
    c1Row0.change = none ∧ c1Row1.change = optSub c1Row1.price c1Row0.price := by
  have h := C1_change_per_group c1State c1Out rfl c1Key
  exact ⟨h.1 c1Row0 rfl, h.2.1 0 c1Row0 c1Row1 rfl rfl⟩

/-- C2: every vendor normalizer emits only rows whose `Datetime` equals the
recombination of the row's canonical `Date` and `Time` fields, and hence so
does the merged table of `process_all_vendors`. -/
theorem C2_datetime_recomposition :
    (∀ (t : Table BBRow) (out : List Row), processBbenergy t = .ok out → GoodFrame out) ∧
    (∀ (t : Table BigWestRow) (out : List Row), processBigwest t = .ok out → GoodFrame out) ∧
    (∀ (t : Table BradHallRow) (out : List Row), processBradhall t = .ok out → GoodFrame out) ∧
    (∀ (t : Table ChevronRow) (out : List Row), processChevron t = .ok out → GoodFrame out) ∧
    (∀ (t : Table KotacoRow) (out : List Row), processKotaco t = .ok out → GoodFrame out) ∧
    (∀ (t : Table MarathonRow) (out : List Row), processMarathon t = .ok out → GoodFrame out) ∧
    (∀ (t : Table MusketRow) (out : List Row), processMusket t = .ok out → GoodFrame out) ∧
    (∀ (t : Table OffenRow) (out : List Row), processOffen t = .ok out → GoodFrame out) ∧
    (∀ (t : Table RebelRow) (out : List Row), processRebel t = .ok out → GoodFrame out) ∧
    (∀ (t : Table ShellRow) (out : List Row), processShell t = .ok out → GoodFrame out) ∧
    (∀ (t : Table SinclairRow) (out : List Row), processSinclair t = .ok out → GoodFrame out) ∧
    (∀ (t : Table SunocoRow) (out : List Row), processSunoco t = .ok out → GoodFrame out) ∧
    (∀ (t : Table TartanRow) (out : List Row), processTartan t = .ok out → GoodFrame out) ∧
    (∀ (t : Table ValeroRow) (out : List Row), processValero t = .ok out → GoodFrame out) ∧
    (∀ (vd : VendorData) (out : List Row), processAllVendors vd = .ok out → GoodFrame out) := by
  refine ⟨processBbenergy_good, processBigwest_good, processBradhall_good,
    processChevron_good, processKotaco_good, processMarathon_good,
    processMusket_good, processOffen_good, processRebel_good, processShell_good,
    processSinclair_good, processSunoco_good, processTartan_good,
    processValero_good, ?_⟩
  intro vd out h r hr
  obtain ⟨dfs, hrv, hne, hout⟩ := processAllVendors_ok h
  subst hout
  obtain ⟨r₀, hr₀, he⟩ := mem_goChange _ [] hr
  have hr₀d : r₀ ∈ dedupRows dfs.flatten := (sortRows_perm _).subset hr₀
  have hr₀f : r₀ ∈ dfs.flatten := mem_dedupRows.1 hr₀d
  obtain ⟨df, hdf, hrdf⟩ := List.mem_flatten.1 hr₀f
  exact dtc_of_erase he (runVendors_good vd hrv df hdf r₀ hrdf)

/-- C2 witness: a concrete BBEnergy row keeps `Datetime = Date + Time`. -/
theorem C2_witness : DTConsistent c2Row :=
  C2_datetime_recomposition.1 c2BbTab [c2Row] rfl c2Row (List.mem_cons_self c2Row [])

/-- C3: contrary to the claim, `_standardize_datetime` (and the Rebel
normalizer built on the same `pd.to_datetime(..., format="mixed")` call,
whose `errors` parameter is left at its default `"raise"`) raises
`ValueError` on a malformed date string instead of degrading that field to
null, aborting the vendor's whole batch. -/
theorem C3_malformed_date_raises :
    stdParse (some "garbage") (some "10:30") = .error "ValueError" ∧
    processRebel c3RebelTab = .error "ValueError" :=
  ⟨rfl, rfl⟩

/-- C4: contrary to the claim, a vendor normalizer applied to the zero-column
empty frame returned by the loader raises `KeyError` on its first column
access instead of returning an empty canonical table; with the vendor's
header columns present, an empty raw table does normalize to an empty
canonical table. -/
theorem C4_empty_table_behaviour :
    processBbenergy c4EmptyTab = .error "KeyError: date" ∧
    processBbenergy c4HeaderTab = .ok [] :=
  ⟨rfl, rfl⟩

/-- C5: with zero vendor frames the merge raises the `pd.concat`
`ValueError`, which `process_all_vendors` surfaces to its caller; with at
least one frame the merge succeeds. -/
theorem C5_merge_failure_semantics :
    (∀ vd : VendorData, vd.bbenergy = none → vd.bigwest = none →
      vd.bradhall = none → vd.chevron = none → vd.kotaco = none →
      vd.marathon = none → vd.musket = none → vd.offen = none →
      vd.rebel = none → vd.shell = none → vd.sinclair = none →
      vd.sunoco = none → vd.tartan = none → vd.valero = none →
      processAllVendors vd = .error "ValueError: No objects to concatenate") ∧
    (∀ dfs : List (List Row), dfs ≠ [] → ∃ merged, combineTables dfs = .ok merged) := by
  constructor
  · intro vd h1 h2 h3 h4 h5 h6 h7 h8 h9 h10 h11 h12 h13 h14
    cases vd
    subst h1 h2 h3 h4 h5 h6 h7 h8 h9 h10 h11 h12 h13 h14
    rfl
  · intro dfs hne
    cases dfs with
    | nil => exact absurd rfl hne
    | cons d ds => exact ⟨_, rfl⟩

/-- C5 witness: the all-missing state errors; a single one-row frame merges. -/
theorem C5_witness :
    processAllVendors vdNone = .error "ValueError: No objects to concatenate" ∧
    ∃ merged, combineTables [[c9Row]] = .ok merged :=
  ⟨C5_merge_failure_semantics.1 vdNone rfl rfl rfl rfl rfl rfl rfl rfl rfl rfl
      rfl rfl rfl rfl,
   C5_merge_failure_semantics.2 [[c9Row]] (List.cons_ne_nil _ _)⟩

/-- C6 counterexample: on a six-token Valero `terminal` cell, the code puts
tokens 0-1 into `Location` and tokens 3-5 into `Terminal` — the opposite of
the claim's assignment. -/
theorem C6_counterexample :
    processValero c6ValTab = .ok [c6Row] ∧ c6Row.location = some "A B" ∧
    c6Row.terminal = some "D E F" ∧ c6Row.terminal ≠ some "A B" ∧
    c6Row.location ≠ some "D E F" :=
  ⟨rfl, rfl, rfl, by decide, by decide⟩

/-- C6 amended: the Valero normalizer divides each raw price by 100, joins
whitespace tokens 0-1 of the raw `terminal` cell into `Location` and tokens
3-5 into `Terminal`, and a cell with too few tokens yields a null value for
the affected field instead of raising. -/
theorem C6_valero_amended :
    ∀ (t : Table ValeroRow) (out : List Row), processValero t = .ok out →
      t.rows.length = out.length ∧
      ∀ i a, t.rows.get? i = some a →
        ∃ r, out.get? i = some r ∧
          r.price = a.price.map (fun q => q / 100) ∧
          r.location = specJoin2 (specTok a.terminal 0) (specTok a.terminal 1) ∧
          r.terminal = specJoin3 (specTok a.terminal 3) (specTok a.terminal 4)
            (specTok a.terminal 5) := by
  intro t out h
  unfold processValero withCols at h
  rcases hreq : requireCols t ["effective_datetime", "product", "price", "terminal"]
      with _ | u <;> rw [hreq] at h
  · cases h
  · obtain ⟨hlen, hget⟩ := emap_ok_get h
    refine ⟨hlen, ?_⟩
    intro i a ha
    obtain ⟨r, hri, hfa⟩ := hget i a ha
    rcases hsp : stdParse a.effectiveDatetime a.effectiveDatetime with _ | p <;>
      rw [hsp] at hfa
    · cases hfa
    · cases hfa
      exact ⟨_, hri, rfl, valeroLocationOf_spec a.terminal,
        valeroTerminalOf_spec a.terminal⟩

/-- C6 witness: a two-token cell yields `Location` from tokens 0-1 and a
null `Terminal`, with the price scaled from cents. -/
theorem C6_witness :
    ∃ r, [c6ShortRow].get? 0 = some r ∧
      r.price = c6ShortRaw.price.map (fun q => q / 100) ∧
      r.location = specJoin2 (specTok c6ShortRaw.terminal 0) (specTok c6ShortRaw.terminal 1) ∧
      r.terminal = specJoin3 (specTok c6ShortRaw.terminal 3) (specTok c6ShortRaw.terminal 4)
        (specTok c6ShortRaw.terminal 5) :=
  (C6_valero_amended c6ShortTab [c6ShortRow] rfl).2 0 c6ShortRaw rfl

/-- C7: contrary to the claim, the Tartan normalizer overwrites the
`Location` column with the empty string before the cascading fill-down runs
(source line 717), so a leading `"Las Vegas"` main-location row is never
carried forward: every output row ends with `Location = ""` and
`Terminal = ""`. -/
theorem C7_cascade_overwritten :
    processTartan c7Tab = .ok [c7Row0, c7Row1] ∧
    c7Row0.location = some "" ∧ c7Row1.location = some "" ∧
    c7Row0.terminal = some "" ∧ c7Row1.terminal = some "" ∧
    c7Row1.location ≠ some "Las Vegas" :=
  ⟨rfl, rfl, rfl, rfl, rfl, by decide⟩

/-- C8 counterexample: two orderings of the same two normalized frames that
share a full sort key with different prices produce different merged tables
(the tied rows swap, changing the `Change` column). -/
theorem C8_counterexample : combineTables c8tsA ≠ combineTables c8tsB := by
  intro h
  have h2 := congrArg (Except.map (List.map Row.price)) h
  revert h2
  decide

/-- C8 amended: the merge result is invariant under permutation of the
vendor frame list provided that, after deduplication, no two distinct rows
share the same `(Supplier, Location, Terminal, Product, Datetime)` sort key;
with such key ties the tie order — and hence `Change` — depends on the
concatenation order. -/
theorem C8_concat_order_amended :
    ∀ ts₁ ts₂ : List (List Row), ts₁.Perm ts₂ →
      ((dedupRows ts₁.flatten).map sortKey).Nodup →
      combineTables ts₁ = combineTables ts₂ := by
  intro ts₁ ts₂ hperm hnodup
  cases ts₁ with
  | nil =>
    have h2 : ts₂ = [] := hperm.symm.eq_nil
    subst h2
    rfl
  | cons d ds =>
    cases ts₂ with
    | nil => exact absurd hperm.eq_nil (List.cons_ne_nil d ds)
    | cons e es =>
      have hf : ((d :: ds).flatten).Perm ((e :: es).flatten) := hperm.flatten
      have hd : (dedupRows (d :: ds).flatten).Perm (dedupRows (e :: es).flatten) :=
        dedupRows_perm_of_perm hf
      have hs : (sortRows (dedupRows (d :: ds).flatten)).Perm
          (sortRows (dedupRows (e :: es).flatten)) :=
        (sortRows_perm _).trans (hd.trans (sortRows_perm _).symm)
      have hnodup₁ : ((sortRows (dedupRows (d :: ds).flatten)).map sortKey).Nodup := by
        have hp2 : ((sortRows (dedupRows (d :: ds).flatten)).map sortKey).Perm
            ((dedupRows (d :: ds).flatten).map sortKey) :=
          (sortRows_perm _).map sortKey
        exact hp2.nodup_iff.2 hnodup
      have heq : sortRows (dedupRows (d :: ds).flatten)
          = sortRows (dedupRows (e :: es).flatten) :=
        sorted_eq_of_perm_nodupKeys hs (sortRows_sorted _) (sortRows_sorted _) hnodup₁
      unfold combineTables
      rw [heq]

/-- C8 witness: two orderings of two frames with distinct sort keys merge to
the same table. -/
theorem C8_witness : combineTables c8wA = combineTables c8wB :=
  C8_concat_order_amended c8wA c8wB (List.Perm.swap [c8s2] [c8s1] []) (by decide)

/-- C9: the cross-reference enrichment is a left outer join: every canonical
row survives into the enriched output, and a row with no reference match is
emitted once with all enrichment columns null and its canonical columns
untouched. -/
theorem C9_left_join_preserves_rows :
    ∀ (df : List Row) (xref : List XRefEntry) (r : Row), r ∈ df →
      (∃ e ∈ applyCrossReference df xref, e.base = r) ∧
      (xref.filter (xrefMatch r) = [] →
        unmatchedRow r ∈ applyCrossReference df xref) := by
  intro df xref r hr
  induction df with
  | nil => cases hr
  | cons a rest ih =>
    rcases List.mem_cons.1 hr with h2 | h2
    · subst h2
      constructor
      · simp only [applyCrossReference]
        rcases hm : xref.filter (xrefMatch r) with _ | ⟨m, ms⟩
        · exact ⟨unmatchedRow r, List.mem_append_left _ (List.mem_cons_self _ _), rfl⟩
        · exact ⟨enrichRow r m,
            List.mem_append_left _ (List.mem_map_of_mem _ (List.mem_cons_self m ms)), rfl⟩
      · intro hno
        simp only [applyCrossReference]
        rw [hno]
        exact List.mem_append_left _ (List.mem_cons_self _ _)
    · have hih := ih h2
      constructor
      · obtain ⟨e, hme, hbe⟩ := hih.1
        exact ⟨e, by simp only [applyCrossReference]; exact List.mem_append_right _ hme, hbe⟩
      · intro hno
        simp only [applyCrossReference]
        exact List.mem_append_right _ (hih.2 hno)

/-- C9 witness: a concrete row with no reference match survives the join
with null enrichment columns. -/
theorem C9_witness : unmatchedRow c9Row ∈ applyCrossReference c9Df c9Xref :=
  (C9_left_join_preserves_rows c9Df c9Xref c9Row (List.mem_cons_self c9Row [])).2 rfl

/-- C10: `process_all_vendors` never reads the `opis` entry of the vendor
state — the OPIS processor is not registered in the dispatch map — so two
states that agree on every other entry produce identical output. -/
theorem C10_opis_ignored :
    ∀ vd₁ vd₂ : VendorData,
      vd₁.bbenergy = vd₂.bbenergy → vd₁.bigwest = vd₂.bigwest →
      vd₁.bradhall = vd₂.bradhall → vd₁.chevron = vd₂.chevron →
      vd₁.chevronTca = vd₂.chevronTca → vd₁.eprod = vd₂.eprod →
      vd₁.kotaco = vd₂.kotaco → vd₁.marathon = vd₂.marathon →
      vd₁.musket = vd₂.musket → vd₁.offen = vd₂.offen →
      vd₁.rebel = vd₂.rebel → vd₁.shell = vd₂.shell →
      vd₁.sinclair = vd₂.sinclair → vd₁.sunoco = vd₂.sunoco →
      vd₁.tartan = vd₂.tartan → vd₁.valero = vd₂.valero →
      processAllVendors vd₁ = processAllVendors vd₂ := by
  intro vd₁ vd₂ h1 h2 h3 h4 h5 h6 h7 h8 h9 h10 h11 h12 h13 h14 h15 h16
  cases vd₁
  cases vd₂
  simp only at h1 h2 h3 h4 h5 h6 h7 h8 h9 h10 h11 h12 h13 h14 h15 h16
  subst h1 h2 h3 h4 h5 h6 h7 h8 h9 h10 h11 h12 h13 h14 h15 h16
  rfl

/-- C10 witness: populating only the `opis` entry leaves the pipeline output
unchanged. -/
theorem C10_witness : processAllVendors c10State = processAllVendors c1State :=
  C10_opis_ignored c10State c1State rfl rfl rfl rfl rfl rfl rfl rfl rfl rfl rfl
    rfl rfl rfl rfl rfl

end CanPipeline
